import Mathlib

/-!
# MintySynth synthesis engine: shallow embedding and verified properties

The development embeds `software/lib/MintySynth/MintySynth.h` and
`software/lib/MintySynth/MintySynth.cpp`.

* Fixed-size C arrays indexed by a voice or a step become functions out of
  `Fin NUM_VOICES` / `Fin NUM_STEPS`; an array store is `Function.update`.
* Machine integers are `Nat` / `Int`; a narrowing store is written out with
  an explicit `% 2^w` (`toU8`, `toU16`, `toI16`).
* `float` / `double` arithmetic is interpreted in an ordered field `F`, with
  the C math library (`pow`, `sin`, `exp`, `PI`, the float-to-integer cast)
  supplied as a record `Libm F`.  The engine is therefore an ordinary
  executable program over any such `F`; the theorems about frequencies use
  the exact-real interpretation `realLibm`.
* `millis()` and `random()` are inputs of the operations that call them.
-/

set_option linter.unusedVariables false
set_option linter.unusedSectionVars false

/-! ## Constants of `MintySynth.h` -/

abbrev SAMPLE_RATE : Nat := 44100
abbrev NUM_VOICES : Nat := 4
abbrev NUM_STEPS : Nat := 16
abbrev NUM_WAVEFORMS : Nat := 15

abbrev WAVE_SINE : Nat := 0
abbrev WAVE_RAMP : Nat := 1
abbrev WAVE_TRIANGLE : Nat := 2
abbrev WAVE_SQUARE : Nat := 3
abbrev WAVE_NOISE : Nat := 4
abbrev WAVE_SAW : Nat := 5

abbrev ENV_ATTACK : Nat := 0
abbrev ENV_DECAY : Nat := 1
abbrev ENV_PLUCK : Nat := 2
abbrev ENV_LONG : Nat := 3
abbrev ENV_REVERSE : Nat := 4

abbrev PARAM_WAVEFORM : Nat := 0
abbrev PARAM_PITCH : Nat := 1
abbrev PARAM_ENVELOPE : Nat := 2
abbrev PARAM_LENGTH : Nat := 3
abbrev PARAM_MODULATION : Nat := 4
abbrev PARAM_VOLUME : Nat := 5

abbrev GLOBAL_TEMPO : Nat := 0
abbrev GLOBAL_SWING : Nat := 1
abbrev GLOBAL_SCALE : Nat := 2
abbrev GLOBAL_TRANSPOSE : Nat := 3
abbrev GLOBAL_VOLUME : Nat := 4

/-! ## Machine integers -/

/-- Store of an `int` into a `uint8_t`. -/
def toU8 (i : Int) : Nat := (i % 256).toNat

/-- Store of an `int` into a `uint16_t`. -/
def toU16 (i : Int) : Nat := (i % 65536).toNat

/-- The cast `(int16_t)value` of a `uint16_t`: the same 16 bits read as two's complement. -/
def toI16 (n : Nat) : Int :=
  if n % 65536 < 32768 then ((n % 65536 : Nat) : Int) else ((n % 65536 : Nat) : Int) - 65536

/-- Modelled from the spec: the `constrain(amt, low, high)` macro of `Arduino.h`, which is
not among the sources; the spec calls its effect clamping to the documented range, and the
Arduino core defines it as `((amt)<(low)?(low):((amt)>(high)?(high):(amt)))`. -/
def constrain {α : Type} [LinearOrder α] (amt low high : α) : α :=
  if amt < low then low else if amt > high then high else amt

/-! ## Data model (`MintySynth.h`) -/

/-- One `struct VoiceParams`. -/
structure VoiceParams where
  waveform : Nat
  pitch : Nat
  envelope : Nat
  length : Nat
  modulation : Nat
  volume : Nat
  active : Bool
deriving DecidableEq, Repr

/-- One `struct SequencerStep`. -/
structure SequencerStep where
  note : Nat
  active : Bool
  velocity : Nat
  length : Nat
deriving DecidableEq, Repr

/-- The `struct SynthParams` of global parameters (`transpose` is an `int8_t`). -/
structure SynthParams where
  tempo : Nat
  swing : Nat
  scale : Nat
  transpose : Int
  masterVolume : Nat
deriving DecidableEq, Repr

/-- The C math library as used by the engine, over the carrier `F` of floating values:
`pow`, `sin`, `exp`, the constant `PI`, and the conversion of a floating value to an
integer type (`toInt`). -/
structure Libm (F : Type) where
  pow : F → F → F
  sin : F → F
  exp : F → F
  PI : F
  toInt : F → Int

/-- The private data members of `class MintySynth`. -/
structure MintySynth (F : Type) where
  voices : Fin NUM_VOICES → VoiceParams
  sequence : Fin NUM_VOICES → Fin NUM_STEPS → SequencerStep
  globals : SynthParams
  playing : Bool
  currentStep : Nat
  lastStepTime : Nat
  stepDuration : Nat
  voicePhase : Fin NUM_VOICES → F
  voiceFreq : Fin NUM_VOICES → F
  voiceEnvPhase : Fin NUM_VOICES → Nat
  voiceActive : Fin NUM_VOICES → Bool

/-- The voice indices in the order of `for (int voice = 0; voice < NUM_VOICES; voice++)`. -/
def allVoices : List (Fin NUM_VOICES) := [0, 1, 2, 3]

/-- Exact-real reading of the math library: `pow` is the real power function, and the
conversion to an integer truncates toward zero, as a C cast does. -/
noncomputable def realLibm : Libm ℝ where
  pow := fun x y => x ^ y
  sin := Real.sin
  exp := Real.exp
  PI := Real.pi
  toInt := fun x => if 0 ≤ x then ⌊x⌋ else ⌈x⌉

namespace MintySynth

variable {F : Type} [LinearOrderedField F]

/-- `MintySynth::calculateStepDuration`: `stepDuration = (60000 / globals.tempo) / 4`
(integer division; the swing adjustment is an empty comment in the source). -/
def calculateStepDuration (s : MintySynth F) : MintySynth F :=
  { s with stepDuration := (60000 / s.globals.tempo) / 4 }

/-- `MintySynth::updateVoiceFrequencies`: for every voice `i`,
`float note = voices[i].pitch + globals.transpose;`
`voiceFreq[i] = 440.0 * pow(2.0, (note - 69) / 12.0);`. -/
def updateVoiceFrequencies (M : Libm F) (s : MintySynth F) : MintySynth F :=
  { s with voiceFreq := fun i =>
      440 * M.pow 2 ((((((s.voices i).pitch : Int) + s.globals.transpose : Int) : F) - 69) / 12) }

/-- The constructor `MintySynth::MintySynth()`. -/
def new : MintySynth F :=
  calculateStepDuration
    { voices := fun _ =>
        { waveform := WAVE_SINE, pitch := 60, envelope := ENV_PLUCK, length := 50,
          modulation := 64, volume := 100, active := false }
      sequence := fun _ _ => { note := 60, active := false, velocity := 127, length := 50 }
      globals := { tempo := 120, swing := 0, scale := 0, transpose := 0, masterVolume := 100 }
      playing := false
      currentStep := 0
      lastStepTime := 0
      stepDuration := 0
      voicePhase := fun _ => 0
      voiceFreq := fun _ => 440
      voiceEnvPhase := fun _ => 0
      voiceActive := fun _ => false }

/-- `MintySynth::begin`. -/
def begin (M : Libm F) (s : MintySynth F) : MintySynth F :=
  updateVoiceFrequencies M s

/-- `MintySynth::setVoiceParam(uint8_t voice, uint8_t param, uint8_t value)`. -/
def setVoiceParam (M : Libm F) (s : MintySynth F) (voice param value : Nat) : MintySynth F :=
  if h : voice ≥ NUM_VOICES then s
  else
    let v : Fin NUM_VOICES := ⟨voice, Nat.lt_of_not_ge h⟩
    let s1 : MintySynth F :=
      if param = PARAM_WAVEFORM then
        { s with voices := (Function.update s.voices v
            { s.voices v with waveform := toU8 (constrain (value : Int) 0 ((NUM_WAVEFORMS : Int) - 1)) }) }
      else if param = PARAM_PITCH then
        { s with voices := (Function.update s.voices v
            { s.voices v with pitch := toU8 (constrain (value : Int) 0 127) }) }
      else if param = PARAM_ENVELOPE then
        { s with voices := (Function.update s.voices v
            { s.voices v with envelope := toU8 (constrain (value : Int) 0 4) }) }
      else if param = PARAM_LENGTH then
        { s with voices := (Function.update s.voices v
            { s.voices v with length := toU8 (constrain (value : Int) 0 127) }) }
      else if param = PARAM_MODULATION then
        { s with voices := (Function.update s.voices v
            { s.voices v with modulation := toU8 (constrain (value : Int) 0 127) }) }
      else if param = PARAM_VOLUME then
        { s with voices := (Function.update s.voices v
            { s.voices v with volume := toU8 (constrain (value : Int) 0 127) }) }
      else s
    updateVoiceFrequencies M s1

/-- `MintySynth::getVoiceParam(uint8_t voice, uint8_t param)`. -/
def getVoiceParam (s : MintySynth F) (voice param : Nat) : Nat :=
  if h : voice ≥ NUM_VOICES then 0
  else
    let v : Fin NUM_VOICES := ⟨voice, Nat.lt_of_not_ge h⟩
    if param = PARAM_WAVEFORM then (s.voices v).waveform
    else if param = PARAM_PITCH then (s.voices v).pitch
    else if param = PARAM_ENVELOPE then (s.voices v).envelope
    else if param = PARAM_LENGTH then (s.voices v).length
    else if param = PARAM_MODULATION then (s.voices v).modulation
    else if param = PARAM_VOLUME then (s.voices v).volume
    else 0

/-- `MintySynth::triggerVoice(uint8_t voice, uint8_t note, uint8_t velocity)`; the
frequency is `440.0 * pow(2.0, (note - 69) / 12.0)` with `note - 69` an `int`. -/
def triggerVoice (M : Libm F) (s : MintySynth F) (voice note velocity : Nat) : MintySynth F :=
  if h : voice ≥ NUM_VOICES then s
  else
    let v : Fin NUM_VOICES := ⟨voice, Nat.lt_of_not_ge h⟩
    { s with
      voices := Function.update s.voices v { s.voices v with pitch := note }
      voiceActive := Function.update s.voiceActive v true
      voiceEnvPhase := Function.update s.voiceEnvPhase v 0
      voicePhase := Function.update s.voicePhase v 0
      voiceFreq := (Function.update s.voiceFreq v
        (440 * M.pow 2 ((((note : Int) - 69 : Int) : F) / 12))) }

/-- `MintySynth::releaseVoice(uint8_t voice)`. -/
def releaseVoice (s : MintySynth F) (voice : Nat) : MintySynth F :=
  if h : voice ≥ NUM_VOICES then s
  else { s with voiceActive := Function.update s.voiceActive ⟨voice, Nat.lt_of_not_ge h⟩ false }

/-- `MintySynth::setStep(uint8_t voice, uint8_t step, uint8_t note, bool active)`. -/
def setStep (s : MintySynth F) (voice step note : Nat) (active : Bool) : MintySynth F :=
  if h : voice ≥ NUM_VOICES ∨ step ≥ NUM_STEPS then s
  else
    let v : Fin NUM_VOICES := ⟨voice, by omega⟩
    let k : Fin NUM_STEPS := ⟨step, by omega⟩
    { s with sequence := (Function.update s.sequence v
        (Function.update (s.sequence v) k { s.sequence v k with note := note, active := active })) }

/-- `MintySynth::clearStep(uint8_t voice, uint8_t step)`. -/
def clearStep (s : MintySynth F) (voice step : Nat) : MintySynth F :=
  if h : voice ≥ NUM_VOICES ∨ step ≥ NUM_STEPS then s
  else
    let v : Fin NUM_VOICES := ⟨voice, by omega⟩
    let k : Fin NUM_STEPS := ⟨step, by omega⟩
    { s with sequence := (Function.update s.sequence v
        (Function.update (s.sequence v) k { s.sequence v k with active := false })) }

/-- `MintySynth::isStepActive(uint8_t voice, uint8_t step)`. -/
def isStepActive (s : MintySynth F) (voice step : Nat) : Bool :=
  if h : voice ≥ NUM_VOICES ∨ step ≥ NUM_STEPS then false
  else (s.sequence ⟨voice, by omega⟩ ⟨step, by omega⟩).active

/-- `MintySynth::setTempo(uint16_t bpm)`. -/
def setTempo (s : MintySynth F) (bpm : Nat) : MintySynth F :=
  calculateStepDuration
    { s with globals := { s.globals with tempo := toU16 (constrain (bpm : Int) 60 200) } }

/-- `MintySynth::start`; `now` is the value returned by `millis()`. -/
def start (s : MintySynth F) (now : Nat) : MintySynth F :=
  { s with playing := true, currentStep := 0, lastStepTime := now }

/-- `MintySynth::stop`. -/
def stop (s : MintySynth F) : MintySynth F :=
  { s with playing := false, voiceActive := fun _ => false }

/-- `MintySynth::isPlaying`. -/
def isPlaying (s : MintySynth F) : Bool := s.playing

/-- `MintySynth::setGlobalParam(uint8_t param, uint16_t value)`. -/
def setGlobalParam (M : Libm F) (s : MintySynth F) (param value : Nat) : MintySynth F :=
  if param = GLOBAL_TEMPO then setTempo s value
  else if param = GLOBAL_SWING then
    calculateStepDuration
      { s with globals := { s.globals with swing := toU8 (constrain (value : Int) 0 127) } }
  else if param = GLOBAL_SCALE then
    { s with globals := { s.globals with scale := toU8 (constrain (value : Int) 0 8) } }
  else if param = GLOBAL_TRANSPOSE then
    updateVoiceFrequencies M
      { s with globals := { s.globals with transpose := constrain (toI16 value) (-12) 12 } }
  else if param = GLOBAL_VOLUME then
    { s with globals := { s.globals with masterVolume := toU8 (constrain (value : Int) 0 127) } }
  else s

/-- `MintySynth::getGlobalParam(uint8_t param)`. -/
def getGlobalParam (s : MintySynth F) (param : Nat) : Nat :=
  if param = GLOBAL_TEMPO then s.globals.tempo
  else if param = GLOBAL_SWING then s.globals.swing
  else if param = GLOBAL_SCALE then s.globals.scale
  else if param = GLOBAL_TRANSPOSE then toU16 (s.globals.transpose + 12)
  else if param = GLOBAL_VOLUME then s.globals.masterVolume
  else 0

/-- Body of the voice loop of `updateSequencer` for one voice, at the step index `step`
that the tick has just stored in `currentStep`: the third argument of `triggerVoice` is the
`int` expression `note + globals.transpose` narrowed to the `uint8_t` parameter. -/
def sequencerVoice (M : Libm F) (step : Fin NUM_STEPS) (s : MintySynth F)
    (voice : Fin NUM_VOICES) : MintySynth F :=
  if (s.sequence voice step).active then
    triggerVoice M s voice.val
      (toU8 (((s.sequence voice step).note : Int) + s.globals.transpose))
      (s.sequence voice step).velocity
  else s

/-- The step index `(currentStep + 1) % NUM_STEPS` that a tick stores in `currentStep`. -/
def nextStep (s : MintySynth F) : Fin NUM_STEPS :=
  ⟨(s.currentStep + 1) % NUM_STEPS, Nat.mod_lt _ (by decide)⟩

/-- `MintySynth::updateSequencer`; `now1` and `now2` are the values returned by the two
calls of `millis()` (the comparison and the store), and `millis() - lastStepTime` is
`unsigned long` arithmetic, 32 bits wide on the target. -/
def updateSequencer (M : Libm F) (s : MintySynth F) (now1 now2 : Nat) : MintySynth F :=
  if !s.playing then s
  else if (((now1 : Int) - (s.lastStepTime : Int)) % 4294967296) ≥ (s.stepDuration : Int) then
    allVoices.foldl (sequencerVoice M (nextStep s))
      { s with currentStep := (nextStep s).val, lastStepTime := now2 }
  else s

/-- `MintySynth::getWaveformSample(uint8_t waveform, float phase)`; `rnd` is the value
returned by `random(-32767, 32767)` should the noise branch be taken. -/
def getWaveformSample (M : Libm F) (rnd : Int) (waveform : Nat) (phase : F) : F :=
  if waveform = WAVE_SINE then M.sin phase
  else if waveform = WAVE_SQUARE then (if phase < M.PI then 1 else -1)
  else if waveform = WAVE_SAW then (2 * phase / (2 * M.PI)) - 1
  else if waveform = WAVE_TRIANGLE then
    (if phase < M.PI then (2 * phase / M.PI) - 1 else 3 - (2 * phase / M.PI))
  else if waveform = WAVE_NOISE then (rnd : F) / 32767
  else M.sin phase

/-- `MintySynth::getEnvelopeSample(uint8_t envelope, uint16_t phase)`. -/
def getEnvelopeSample (M : Libm F) (envelope phase : Nat) : F :=
  let normalizedPhase : F := (phase : F) / 1000
  if envelope = ENV_ATTACK then (if normalizedPhase < 1 then normalizedPhase else 1)
  else if envelope = ENV_DECAY then (if normalizedPhase < 1 then 1 - normalizedPhase else 0)
  else if envelope = ENV_PLUCK then M.exp (-normalizedPhase * 3)
  else if envelope = ENV_LONG then
    (if normalizedPhase < 2 then 1 else M.exp (-(normalizedPhase - 2)))
  else if envelope = ENV_REVERSE then (if normalizedPhase < 1 then 1 - normalizedPhase else 0)
  else M.exp (-normalizedPhase * 2)

/-- Narrowing of a `double` to `float` (IEEE 754 binary32, round to nearest, ties to even)
at the low end of the range: the least positive `float` is `2^-149`, so a value of
magnitude at most `2^-150` becomes 0. Only this underflow is modelled; a value of larger
magnitude is returned as it is, without the rounding to 24 significant bits. -/
def narrowToFloat (x : F) : F := if |x| ≤ 1 / 2 ^ 150 then 0 else x

/-- The value of `getEnvelopeSample` as its caller receives it: the return type of
`float MintySynth::getEnvelopeSample(uint8_t envelope, uint16_t phase)` is `float`, so the
`double` computed by the selected branch (`exp` returns `double`) is narrowed on return. -/
def getEnvelopeSampleFloat (M : Libm F) (envelope phase : Nat) : F :=
  narrowToFloat (getEnvelopeSample M envelope phase)

/-- Body of the voice loop of `processAudio` for one voice; the accumulator carries the
engine state and the running `mixL`, `mixR`. -/
def processVoice (M : Libm F) (rnd : Fin NUM_VOICES → Int) (acc : MintySynth F × F × F)
    (voice : Fin NUM_VOICES) : MintySynth F × F × F :=
  if !acc.1.voiceActive voice then acc
  else
    let s := acc.1
    let sample : F := getWaveformSample M (rnd voice) (s.voices voice).waveform (s.voicePhase voice)
    let envSample : F := getEnvelopeSample M (s.voices voice).envelope (s.voiceEnvPhase voice)
    let sample : F := sample * envSample
    let sample : F := sample * (((s.voices voice).volume : F) / 127)
    let phase : F := s.voicePhase voice + (s.voiceFreq voice * 2 * M.PI) / (SAMPLE_RATE : F)
    let phase : F := if phase > 2 * M.PI then phase - 2 * M.PI else phase
    let envPhase : Nat := (s.voiceEnvPhase voice + 1) % 65536
    let envLength : Nat := ((s.voices voice).length * SAMPLE_RATE / 1000) % 65536
    ({ s with
        voicePhase := Function.update s.voicePhase voice phase
        voiceEnvPhase := Function.update s.voiceEnvPhase voice envPhase
        voiceActive :=
          if envPhase > envLength then Function.update s.voiceActive voice false
          else s.voiceActive },
      acc.2.1 + sample, acc.2.2 + sample)

/-- One iteration of the outer loop of `processAudio`: the new engine state and the two
values stored at `buffer[i]` and `buffer[i + 1]`. -/
def renderFrame (M : Libm F) (rnd : Fin NUM_VOICES → Int) (s : MintySynth F) :
    MintySynth F × Int × Int :=
  let r := allVoices.foldl (processVoice M rnd) (s, 0, 0)
  let mixL : F := r.2.1 * ((r.1.globals.masterVolume : F) / 127)
  let mixR : F := r.2.2 * ((r.1.globals.masterVolume : F) / 127)
  (r.1, M.toInt (constrain (mixL * 16000) (-32767) 32767),
        M.toInt (constrain (mixR * 16000) (-32767) 32767))

/-- The loop `for (size_t i = 0; i < length; i += 2)` of `processAudio`, entered at index
`i`; `random i` supplies the values that `random()` returns during the iteration at `i`. -/
def processAudioLoop (M : Libm F) (random : Nat → Fin NUM_VOICES → Int) (length : Nat)
    (i : Nat) (s : MintySynth F) (buffer : Nat → Int) : MintySynth F × (Nat → Int) :=
  if h : i < length then
    let r := renderFrame M (random i) s
    processAudioLoop M random length (i + 2) r.1
      (Function.update (Function.update buffer i r.2.1) (i + 1) r.2.2)
  else (s, buffer)
termination_by length - i
decreasing_by omega

/-- `MintySynth::processAudio(int16_t* buffer, size_t length)`: the engine state and the
buffer contents after the call. -/
def processAudio (M : Libm F) (random : Nat → Fin NUM_VOICES → Int) (s : MintySynth F)
    (buffer : Nat → Int) (length : Nat) : MintySynth F × (Nat → Int) :=
  processAudioLoop M random length 0 s buffer

/-! ## Public operations and reachable states -/

/-- A call of one public operation of the engine, with its arguments; for the operations
that read the clock or the random source, the values read are part of the call. -/
inductive Op where
  | begin
  | setVoiceParam (voice param value : Nat)
  | setGlobalParam (param value : Nat)
  | setTempo (bpm : Nat)
  | triggerVoice (voice note velocity : Nat)
  | releaseVoice (voice : Nat)
  | setStep (voice step note : Nat) (active : Bool)
  | clearStep (voice step : Nat)
  | start (now : Nat)
  | stop
  | updateSequencer (now1 now2 : Nat)
  | processAudio (random : Nat → Fin NUM_VOICES → Int) (buffer : Nat → Int) (length : Nat)

/-- The arguments of a call fit the C parameter types: `uint8_t` values are below 256,
`uint16_t` values below 65536, `millis()` readings are 32-bit, and `random(-32767, 32767)`
returns a value from -32767 up to 32766. -/
def Op.wellTyped : Op → Prop
  | Op.begin => True
  | Op.setVoiceParam voice param value => voice < 256 ∧ param < 256 ∧ value < 256
  | Op.setGlobalParam param value => param < 256 ∧ value < 65536
  | Op.setTempo bpm => bpm < 65536
  | Op.triggerVoice voice note velocity => voice < 256 ∧ note < 256 ∧ velocity < 256
  | Op.releaseVoice voice => voice < 256
  | Op.setStep voice step note _ => voice < 256 ∧ step < 256 ∧ note < 256
  | Op.clearStep voice step => voice < 256 ∧ step < 256
  | Op.start now => now < 4294967296
  | Op.stop => True
  | Op.updateSequencer now1 now2 => now1 < 4294967296 ∧ now2 < 4294967296
  | Op.processAudio random _ _ => ∀ i v, -32767 ≤ random i v ∧ random i v ≤ 32766

/-- The engine state after a call of a public operation. -/
def applyOp (M : Libm F) (s : MintySynth F) : Op → MintySynth F
  | Op.begin => begin M s
  | Op.setVoiceParam voice param value => setVoiceParam M s voice param value
  | Op.setGlobalParam param value => setGlobalParam M s param value
  | Op.setTempo bpm => setTempo s bpm
  | Op.triggerVoice voice note velocity => triggerVoice M s voice note velocity
  | Op.releaseVoice voice => releaseVoice s voice
  | Op.setStep voice step note active => setStep s voice step note active
  | Op.clearStep voice step => clearStep s voice step
  | Op.start now => start s now
  | Op.stop => stop s
  | Op.updateSequencer now1 now2 => updateSequencer M s now1 now2
  | Op.processAudio random buffer length => (processAudio M random s buffer length).1

/-- The states reachable from construction by a sequence of public operations. -/
inductive Reachable (M : Libm F) : MintySynth F → Prop
  | new : Reachable M MintySynth.new
  | step (s : MintySynth F) (op : Op) : Reachable M s → op.wellTyped → Reachable M (applyOp M s op)

/-- The engine state after the sequencer ticks of `ticks`, one pair of `millis()` readings
per call of `updateSequencer`, in order. -/
def runTicks (M : Libm F) (s : MintySynth F) : List (Nat × Nat) → MintySynth F
  | [] => s
  | t :: ticks => runTicks M (updateSequencer M s t.1 t.2) ticks

/-- The tick with first clock reading `now1` observes an elapsed step: the engine is
playing and the `unsigned long` difference `now1 - lastStepTime` is at least
`stepDuration`. -/
def stepElapsed (s : MintySynth F) (now1 : Nat) : Prop :=
  s.playing = true ∧
    (s.stepDuration : Int) ≤ ((now1 : Int) - (s.lastStepTime : Int)) % 4294967296

/-- Every tick of `ticks`, run in order from `s`, observes an elapsed step. -/
def allElapsed (M : Libm F) (s : MintySynth F) : List (Nat × Nat) → Prop
  | [] => True
  | t :: ticks => stepElapsed s t.1 ∧ allElapsed M (updateSequencer M s t.1 t.2) ticks

/-- The clock readings of `k` ticks spaced `period` milliseconds apart, the first one
`period` after `start`; both readings of a tick are the same instant. -/
def regularTicks (start period : Nat) : Nat → List (Nat × Nat)
  | 0 => []
  | k + 1 => (start + period, start + period) :: regularTicks (start + period) period k

/-- The engine after `setStep(0, 1, 0, true)`, `setGlobalParam(GLOBAL_TRANSPOSE, 65524)`
(the 16-bit pattern of -12) and `start()` at time 0, all on a fresh engine: cell (0, 1) is
active with note 0 and the transpose is -12. -/
def lowNoteTransposedDown (M : Libm F) : MintySynth F :=
  start (setGlobalParam M (setStep new 0 1 0 true) GLOBAL_TRANSPOSE 65524) 0

/-- The engine after `begin()`, `setGlobalParam(GLOBAL_TRANSPOSE, 12)` and
`triggerVoice(0, 69, 127)`, all on a fresh engine. -/
def triggeredAfterTranspose (M : Libm F) : MintySynth F :=
  triggerVoice M (setGlobalParam M (begin M new) GLOBAL_TRANSPOSE 12) 0 69 127

/-- Everything the engine holds for voice `v`: its stored parameters, oscillator phase,
current frequency, envelope clock and active flag. -/
def voiceState (s : MintySynth F) (v : Fin NUM_VOICES) : VoiceParams × F × F × Nat × Bool :=
  (s.voices v, s.voicePhase v, s.voiceFreq v, s.voiceEnvPhase v, s.voiceActive v)

/-- Everything the engine holds apart from the per-voice state: the grid, the globals and
the transport (playing flag, step index, step clock baseline and step duration). -/
def sharedState (s : MintySynth F) :
    (Fin NUM_VOICES → Fin NUM_STEPS → SequencerStep) × SynthParams × Bool × Nat × Nat × Nat :=
  (s.sequence, s.globals, s.playing, s.currentStep, s.lastStepTime, s.stepDuration)

/-- Everything the engine holds apart from the grid. -/
def nonGridState (s : MintySynth F) :
    (Fin NUM_VOICES → VoiceParams) × SynthParams × Bool × Nat × Nat × Nat
      × (Fin NUM_VOICES → F) × (Fin NUM_VOICES → F) × (Fin NUM_VOICES → Nat)
      × (Fin NUM_VOICES → Bool) :=
  (s.voices, s.globals, s.playing, s.currentStep, s.lastStepTime, s.stepDuration,
    s.voicePhase, s.voiceFreq, s.voiceEnvPhase, s.voiceActive)

/-- The engine state at the start of frame `k` of a `processAudio` call entered in state
`s`, frame `k` being the loop iteration at index `i = 2 * k`. -/
def stateAtFrame (M : Libm F) (random : Nat → Fin NUM_VOICES → Int) (s : MintySynth F) :
    Nat → MintySynth F
  | 0 => s
  | k + 1 => (renderFrame M (random (2 * k)) (stateAtFrame M random s k)).1

/-- The two values that frame `k` of a `processAudio` call entered in state `s` stores at
`buffer[2 * k]` (left) and `buffer[2 * k + 1]` (right). -/
def frameOutput (M : Libm F) (random : Nat → Fin NUM_VOICES → Int) (s : MintySynth F)
    (k : Nat) : Int × Int :=
  (renderFrame M (random (2 * k)) (stateAtFrame M random s k)).2

/-- What voice `v` adds to `mixL` and to `mixR` in one frame rendered from state `s`:
waveform sample times envelope gain times `volume / 127` if the voice is active, nothing
otherwise. -/
def voiceContribution (M : Libm F) (rnd : Fin NUM_VOICES → Int) (s : MintySynth F)
    (v : Fin NUM_VOICES) : F :=
  if s.voiceActive v then
    getWaveformSample M (rnd v) (s.voices v).waveform (s.voicePhase v)
      * getEnvelopeSample M (s.voices v).envelope (s.voiceEnvPhase v)
      * (((s.voices v).volume : F) / 127)
  else 0

/-- The oscillator phase after the phase update of the voice loop: advanced by
`freq * 2 * PI / SAMPLE_RATE`, then reduced by `2 * PI` once if it exceeds `2 * PI`. -/
def advancedPhase (M : Libm F) (phase freq : F) : F :=
  if phase + (freq * 2 * M.PI) / (SAMPLE_RATE : F) > 2 * M.PI then
    phase + (freq * 2 * M.PI) / (SAMPLE_RATE : F) - 2 * M.PI
  else phase + (freq * 2 * M.PI) / (SAMPLE_RATE : F)

/-- The state of voice `v` after one frame rendered from state `s`: an inactive voice is
skipped; an active voice has its phase advanced, its 16-bit envelope clock incremented, and
is deactivated if the clock then exceeds `length * SAMPLE_RATE / 1000`. -/
def voiceAfterFrame (M : Libm F) (s : MintySynth F) (v : Fin NUM_VOICES) :
    VoiceParams × F × F × Nat × Bool :=
  if s.voiceActive v then
    (s.voices v, advancedPhase M (s.voicePhase v) (s.voiceFreq v), s.voiceFreq v,
      (s.voiceEnvPhase v + 1) % 65536,
      if (s.voiceEnvPhase v + 1) % 65536 > ((s.voices v).length * SAMPLE_RATE / 1000) % 65536
        then false else true)
  else voiceState s v

/-- A fresh engine after `triggerVoice(0, 69, 127)`: voice 0 sounds A4 with the default
length parameter 50. -/
def a4Triggered (M : Libm F) : MintySynth F :=
  triggerVoice M new 0 69 127

/-- A fresh engine after `triggerVoice(0, 189, 127)` and one `processAudio` call of buffer
length 2 (one frame): note 189 is ten octaves above A4, 450560 Hz. -/
def highNoteOneFrame (M : Libm F) : MintySynth F :=
  (processAudio M (fun _ _ => 0) (triggerVoice M new 0 189 127) (fun _ => 0) 2).1

/-- A fresh engine after `triggerVoice(0, 69, 127)` and one `processAudio` call of buffer
length 4410, that is 2205 frames, the full default note length. -/
def a4AfterFullLength (M : Libm F) : MintySynth F :=
  applyOp M (applyOp M new (Op.triggerVoice 0 69 127))
    (Op.processAudio (fun _ _ => 0) (fun _ => 0) 4410)

/-- The step-clock invariant: the tempo lies in `[60, 200]` and the step duration is
`(60000 / tempo) / 4`. -/
def stepClockConsistent (s : MintySynth F) : Prop :=
  60 ≤ s.globals.tempo ∧ s.globals.tempo ≤ 200
    ∧ s.stepDuration = (60000 / s.globals.tempo) / 4

/-- Bounds of the envelope clocks: an active voice has its clock at most 5600, and every
voice has its clock at most 5601. -/
def envClockBounded (s : MintySynth F) : Prop :=
  ∀ v, (s.voiceActive v = true → s.voiceEnvPhase v ≤ 5600) ∧ s.voiceEnvPhase v ≤ 5601

/-- Ranges of the stored voice parameters: waveform at most 14, envelope kind at most 4,
length, modulation and volume at most 127, and the pitch an 8-bit value. -/
def voiceStoreBounded (s : MintySynth F) : Prop :=
  ∀ v, (s.voices v).waveform ≤ 14 ∧ (s.voices v).pitch ≤ 255 ∧ (s.voices v).envelope ≤ 4
    ∧ (s.voices v).length ≤ 127 ∧ (s.voices v).modulation ≤ 127 ∧ (s.voices v).volume ≤ 127

end MintySynth

/-! ## Auxiliary facts on machine integers -/

theorem toU8_constrain_nat (x hi : Nat) (h : hi < 256) :
    toU8 (constrain (x : Int) 0 (hi : Int)) = min x hi := by
  unfold toU8 constrain
  have h0 : ¬ ((x : Int) < 0) := by omega
  rw [if_neg h0]
  split_ifs with h1
  · have : min x hi = hi := by omega
    rw [this]; omega
  · have : min x hi = x := by omega
    rw [this]; omega

theorem toU16_constrain_nat (x lo hi : Nat) (hlo : lo ≤ hi) (h : hi < 65536) :
    toU16 (constrain (x : Int) (lo : Int) (hi : Int)) = max lo (min x hi) := by
  unfold toU16 constrain
  split_ifs with h0 h1
  · have : max lo (min x hi) = lo := by omega
    rw [this]; omega
  · have : max lo (min x hi) = hi := by omega
    rw [this]; omega
  · have : max lo (min x hi) = x := by omega
    rw [this]; omega

namespace MintySynth

variable {F : Type} [LinearOrderedField F]

/-! ## Parameter store -/

@[simp]
theorem updateVoiceFrequencies_voices (M : Libm F) (s : MintySynth F) :
    (updateVoiceFrequencies M s).voices = s.voices := rfl

/-- C1: for a voice `v < 4` and a parameter id `p` in `0..5`, `getVoiceParam(v, p)` right
after `setVoiceParam(v, p, x)` returns `min(x, max_p)`, where `max_p` is 14 for the
waveform, 4 for the envelope and 127 for pitch, length, modulation and volume; every other
(voice, parameter) pair reads back as before. -/
theorem setVoiceParam_getVoiceParam (M : Libm F) (s : MintySynth F) (v p x : Nat)
    (hv : v < NUM_VOICES) (hp : p < 6) :
    getVoiceParam (setVoiceParam M s v p x) v p
        = min x (if p = PARAM_WAVEFORM then 14 else if p = PARAM_ENVELOPE then 4 else 127)
      ∧ ∀ v' p' : Nat, (v' ≠ v ∨ p' ≠ p) →
          getVoiceParam (setVoiceParam M s v p x) v' p' = getVoiceParam s v' p' := by
  have e14 := toU8_constrain_nat x 14 (by decide)
  have e4 := toU8_constrain_nat x 4 (by decide)
  have e127 := toU8_constrain_nat x 127 (by decide)
  have hv' : ¬ (v ≥ NUM_VOICES) := by omega
  constructor
  · unfold getVoiceParam setVoiceParam
    simp only [dif_neg hv']
    interval_cases p <;> simp_all
  · intro v' p' hne
    unfold getVoiceParam setVoiceParam
    simp only [dif_neg hv']
    by_cases hv4 : v' ≥ NUM_VOICES
    · simp only [dif_pos hv4]
    · simp only [dif_neg hv4]
      by_cases hvv : v' = v
      · subst hvv
        have hpp : p' ≠ p := by
          rcases hne with h | h
          · exact absurd rfl h
          · exact h
        interval_cases p <;> simp_all
      · have hfin : (⟨v', Nat.lt_of_not_ge hv4⟩ : Fin NUM_VOICES) ≠ ⟨v, Nat.lt_of_not_ge hv'⟩ := by
          intro h; exact hvv (Fin.mk.inj h)
        interval_cases p <;> simp [Function.update_noteq hfin]

/-- Witness for C1: pitch 200 written to voice 0 of a fresh engine reads back as 127. -/
theorem setVoiceParam_getVoiceParam_witness :
    (0 < NUM_VOICES ∧ 1 < 6) ∧
    (getVoiceParam (setVoiceParam realLibm (new : MintySynth ℝ) 0 1 200) 0 1
        = min 200 (if 1 = PARAM_WAVEFORM then 14 else if 1 = PARAM_ENVELOPE then 4 else 127)
      ∧ ∀ v' p' : Nat, (v' ≠ 0 ∨ p' ≠ 1) →
          getVoiceParam (setVoiceParam realLibm (new : MintySynth ℝ) 0 1 200) v' p'
            = getVoiceParam (new : MintySynth ℝ) v' p') :=
  ⟨by decide, setVoiceParam_getVoiceParam realLibm new 0 1 200 (by decide) (by decide)⟩

/-- C2: after `setTempo(x)`, and likewise after `setGlobalParam(GLOBAL_TEMPO, x)`, the
stored tempo is `max(60, min(x, 200))` and `getGlobalParam(GLOBAL_TEMPO)` returns exactly
that value. -/
theorem setTempo_clamps (M : Libm F) (s : MintySynth F) (x : Nat) :
    (setTempo s x).globals.tempo = max 60 (min x 200)
      ∧ getGlobalParam (setTempo s x) GLOBAL_TEMPO = max 60 (min x 200)
      ∧ (setGlobalParam M s GLOBAL_TEMPO x).globals.tempo = max 60 (min x 200)
      ∧ getGlobalParam (setGlobalParam M s GLOBAL_TEMPO x) GLOBAL_TEMPO = max 60 (min x 200) := by
  have e := toU16_constrain_nat x 60 200 (by decide) (by decide)
  have h1 : (setTempo s x).globals.tempo = max 60 (min x 200) := by
    simpa [setTempo, calculateStepDuration] using e
  have h2 : setGlobalParam M s GLOBAL_TEMPO x = setTempo s x := by
    simp [setGlobalParam]
  refine ⟨h1, ?_, ?_, ?_⟩
  · simpa [getGlobalParam] using h1
  · rw [h2]; exact h1
  · rw [h2]; simpa [getGlobalParam] using h1

/-- C3: with a voice index `v ≥ NUM_VOICES` or a step index `st ≥ NUM_STEPS`, the mutators
`setVoiceParam`, `triggerVoice`, `releaseVoice`, `setStep` and `clearStep` return the engine
state unchanged, `getVoiceParam` returns 0 and `isStepActive` returns false (`w` and `k` are
an arbitrary voice and step index accompanying the out-of-range one). -/
theorem out_of_range_is_noop (M : Libm F) (s : MintySynth F) (v st w k p x n vel : Nat)
    (a : Bool) (hv : NUM_VOICES ≤ v) (hst : NUM_STEPS ≤ st) :
    setVoiceParam M s v p x = s
      ∧ triggerVoice M s v n vel = s
      ∧ releaseVoice s v = s
      ∧ setStep s v k n a = s ∧ setStep s w st n a = s
      ∧ clearStep s v k = s ∧ clearStep s w st = s
      ∧ getVoiceParam s v p = 0
      ∧ isStepActive s v k = false ∧ isStepActive s w st = false := by
  have h1 : v ≥ NUM_VOICES ∨ k ≥ NUM_STEPS := Or.inl hv
  have h2 : w ≥ NUM_VOICES ∨ st ≥ NUM_STEPS := Or.inr hst
  refine ⟨?_, ?_, ?_, ?_, ?_, ?_, ?_, ?_, ?_, ?_⟩
  · unfold setVoiceParam; rw [dif_pos hv]
  · unfold triggerVoice; rw [dif_pos hv]
  · unfold releaseVoice; rw [dif_pos hv]
  · unfold setStep; rw [dif_pos h1]
  · unfold setStep; rw [dif_pos h2]
  · unfold clearStep; rw [dif_pos h1]
  · unfold clearStep; rw [dif_pos h2]
  · unfold getVoiceParam; rw [dif_pos hv]
  · unfold isStepActive; rw [dif_pos h1]
  · unfold isStepActive; rw [dif_pos h2]

/-- Witness for C3: voice index 4 and step index 16 on a fresh engine. -/
theorem out_of_range_is_noop_witness :
    (NUM_VOICES ≤ 4 ∧ NUM_STEPS ≤ 16) ∧
    (setVoiceParam realLibm (new : MintySynth ℝ) 4 1 72 = new
      ∧ triggerVoice realLibm (new : MintySynth ℝ) 4 69 127 = new
      ∧ releaseVoice (new : MintySynth ℝ) 4 = new
      ∧ setStep (new : MintySynth ℝ) 4 3 69 true = new
      ∧ setStep (new : MintySynth ℝ) 2 16 69 true = new
      ∧ clearStep (new : MintySynth ℝ) 4 3 = new ∧ clearStep (new : MintySynth ℝ) 2 16 = new
      ∧ getVoiceParam (new : MintySynth ℝ) 4 1 = 0
      ∧ isStepActive (new : MintySynth ℝ) 4 3 = false
      ∧ isStepActive (new : MintySynth ℝ) 2 16 = false) :=
  ⟨by decide,
    out_of_range_is_noop realLibm new 4 16 2 3 1 72 69 127 true (by decide) (by decide)⟩

/-! ## Unknown parameter ids -/

/-- The frequency that `updateVoiceFrequencies` computes for voice 0 of a fresh engine
(pitch 60, transpose 0) is strictly below the 440 Hz stored by the constructor. -/
theorem new_recomputed_freq_lt :
    (updateVoiceFrequencies realLibm (new : MintySynth ℝ)).voiceFreq 0 < 440 := by
  have h : (2 : ℝ) ^ (((60 : ℝ) - 69) / 12) < 1 :=
    Real.rpow_lt_one_of_one_lt_of_neg (by norm_num) (by norm_num)
  simp only [updateVoiceFrequencies, new, calculateStepDuration, realLibm]
  push_cast
  norm_num
  linarith

/-- On a fresh engine, `setVoiceParam(0, 6, 0)` (parameter id 6 is unknown) changes the
frequency of voice 0, so the engine state is not unchanged. -/
theorem setVoiceParam_unknown_param_changes_freq :
    (0 < NUM_VOICES ∧ 6 ≤ 6) ∧
    (setVoiceParam realLibm (new : MintySynth ℝ) 0 6 0).voiceFreq 0
        ≠ (new : MintySynth ℝ).voiceFreq 0
      ∧ setVoiceParam realLibm (new : MintySynth ℝ) 0 6 0 ≠ new := by
  have hlt := new_recomputed_freq_lt
  have hne : (setVoiceParam realLibm (new : MintySynth ℝ) 0 6 0).voiceFreq 0
      ≠ (new : MintySynth ℝ).voiceFreq 0 := by
    have e : setVoiceParam realLibm (new : MintySynth ℝ) 0 6 0
        = updateVoiceFrequencies realLibm new := by
      simp [setVoiceParam]
    rw [e]
    have e2 : (new : MintySynth ℝ).voiceFreq 0 = 440 := rfl
    rw [e2]
    exact ne_of_lt hlt
  refine ⟨by decide, hne, ?_⟩
  intro h
  exact hne (by rw [h])

/-- What the code does with an unknown id: for a voice `v < 4` and a parameter id `p ≥ 6`,
the switch of `setVoiceParam(v, p, x)` stores nothing, but the call to
`updateVoiceFrequencies()` that follows the switch still runs, so the result is the given
state with every voice's frequency set to `440 * pow(2, (pitch + transpose - 69) / 12)`; it
is the given state itself only when the frequencies already had these values. For an unknown
global parameter id `g ≥ 5`, `setGlobalParam(g, x)` returns the engine state unchanged. -/
theorem unknown_param_effect (M : Libm F) (s : MintySynth F) (v p x g : Nat)
    (hv : v < NUM_VOICES) (hp : 6 ≤ p) (hg : 5 ≤ g) :
    setVoiceParam M s v p x
        = { s with voiceFreq := (fun i =>
              440 * M.pow 2
                ((((((s.voices i).pitch : Int) + s.globals.transpose : Int) : F) - 69) / 12)) }
      ∧ ((∀ i, s.voiceFreq i = 440 * M.pow 2
                ((((((s.voices i).pitch : Int) + s.globals.transpose : Int) : F) - 69) / 12))
          → setVoiceParam M s v p x = s)
      ∧ setGlobalParam M s g x = s := by
  have hv' : ¬ (v ≥ NUM_VOICES) := by omega
  have e : setVoiceParam M s v p x = updateVoiceFrequencies M s := by
    unfold setVoiceParam
    rw [dif_neg hv']
    have h0 : p ≠ PARAM_WAVEFORM := by simp only [PARAM_WAVEFORM]; omega
    have h1 : p ≠ PARAM_PITCH := by simp only [PARAM_PITCH]; omega
    have h2 : p ≠ PARAM_ENVELOPE := by simp only [PARAM_ENVELOPE]; omega
    have h3 : p ≠ PARAM_LENGTH := by simp only [PARAM_LENGTH]; omega
    have h4 : p ≠ PARAM_MODULATION := by simp only [PARAM_MODULATION]; omega
    have h5 : p ≠ PARAM_VOLUME := by simp only [PARAM_VOLUME]; omega
    simp only [if_neg h0, if_neg h1, if_neg h2, if_neg h3, if_neg h4, if_neg h5]
  refine ⟨?_, ?_, ?_⟩
  · rw [e]; rfl
  · intro hsync
    rw [e]
    have hf : (fun i => 440 * M.pow 2
        ((((((s.voices i).pitch : Int) + s.globals.transpose : Int) : F) - 69) / 12))
          = s.voiceFreq := funext fun i => (hsync i).symm
    simp only [updateVoiceFrequencies, hf]
  · unfold setGlobalParam
    have h0 : g ≠ GLOBAL_TEMPO := by simp only [GLOBAL_TEMPO]; omega
    have h1 : g ≠ GLOBAL_SWING := by simp only [GLOBAL_SWING]; omega
    have h2 : g ≠ GLOBAL_SCALE := by simp only [GLOBAL_SCALE]; omega
    have h3 : g ≠ GLOBAL_TRANSPOSE := by simp only [GLOBAL_TRANSPOSE]; omega
    have h4 : g ≠ GLOBAL_VOLUME := by simp only [GLOBAL_VOLUME]; omega
    simp only [if_neg h0, if_neg h1, if_neg h2, if_neg h3, if_neg h4]

/-- The effect of the unknown ids at parameter id 6 and global parameter id 5 on a fresh
engine. -/
theorem unknown_param_effect_witness :
    (0 < NUM_VOICES ∧ 6 ≤ 6 ∧ 5 ≤ 5) ∧
    (setVoiceParam realLibm (new : MintySynth ℝ) 0 6 9
        = { (new : MintySynth ℝ) with voiceFreq := (fun i =>
              440 * realLibm.pow 2
                (((((((new : MintySynth ℝ).voices i).pitch : Int)
                    + (new : MintySynth ℝ).globals.transpose : Int) : ℝ) - 69) / 12)) }
      ∧ ((∀ i, (new : MintySynth ℝ).voiceFreq i = 440 * realLibm.pow 2
                (((((((new : MintySynth ℝ).voices i).pitch : Int)
                    + (new : MintySynth ℝ).globals.transpose : Int) : ℝ) - 69) / 12))
          → setVoiceParam realLibm (new : MintySynth ℝ) 0 6 9 = new)
      ∧ setGlobalParam realLibm (new : MintySynth ℝ) 5 9 = new) :=
  ⟨by decide, unknown_param_effect realLibm new 0 6 9 5 (by decide) (by decide) (by decide)⟩

/-! ## Invariants: general principles -/

/-- Induction over the public operations: a property of the fresh engine that every
well-typed call preserves holds in every reachable state. -/
theorem Reachable.invariant (M : Libm F) (P : MintySynth F → Prop) (h0 : P MintySynth.new)
    (hstep : ∀ s op, P s → Op.wellTyped op → P (applyOp M s op)) :
    ∀ s, Reachable M s → P s := by
  intro s hs
  induction hs with
  | new => exact h0
  | step s op _ hw ih => exact hstep s op ih hw

/-- A property preserved by the body of the voice loop is preserved by a rendered frame. -/
theorem renderFrame_invariant (M : Libm F) (rnd : Fin NUM_VOICES → Int)
    (P : MintySynth F → Prop)
    (hP : ∀ acc v, P acc.1 → P (processVoice M rnd acc v).1) (s : MintySynth F) (hs : P s) :
    P (renderFrame M rnd s).1 := by
  simp only [renderFrame, allVoices, List.foldl]
  exact hP _ _ (hP _ _ (hP _ _ (hP _ _ hs)))

/-- A property preserved by every rendered frame is preserved by the loop of
`processAudio`, entered at any index. -/
theorem processAudioLoop_invariant (M : Libm F) (random : Nat → Fin NUM_VOICES → Int)
    (length : Nat) (P : MintySynth F → Prop)
    (hP : ∀ rnd s, P s → P (renderFrame M rnd s).1) :
    ∀ (n i : Nat) (s : MintySynth F) (buffer : Nat → Int), length - i ≤ n → P s →
      P (processAudioLoop M random length i s buffer).1 := by
  intro n
  induction n with
  | zero =>
    intro i s buffer hn hs
    rw [processAudioLoop]
    have h : ¬ i < length := by omega
    rw [dif_neg h]
    exact hs
  | succ n ih =>
    intro i s buffer hn hs
    rw [processAudioLoop]
    by_cases h : i < length
    · rw [dif_pos h]
      exact ih (i + 2) _ _ (by omega) (hP _ _ hs)
    · rw [dif_neg h]
      exact hs

/-- A property preserved by the body of the voice loop is preserved by `processAudio`. -/
theorem processAudio_invariant (M : Libm F) (random : Nat → Fin NUM_VOICES → Int)
    (P : MintySynth F → Prop)
    (hP : ∀ rnd acc v, P acc.1 → P (processVoice M rnd acc v).1)
    (s : MintySynth F) (buffer : Nat → Int) (length : Nat) (hs : P s) :
    P (processAudio M random s buffer length).1 :=
  processAudioLoop_invariant M random length P
    (fun rnd t ht => renderFrame_invariant M rnd P (hP rnd) t ht) length 0 s buffer
    (by omega) hs

/-- A property preserved by `triggerVoice` with an 8-bit note, and independent of the step
index and of the step clock baseline, is preserved by `updateSequencer`. -/
theorem updateSequencer_invariant (M : Libm F) (P : MintySynth F → Prop)
    (htrig : ∀ s v n vel, P s → n < 256 → P (triggerVoice M s v n vel))
    (hclock : ∀ s c t, P s → P { s with currentStep := c, lastStepTime := t })
    (s : MintySynth F) (now1 now2 : Nat) (hs : P s) :
    P (updateSequencer M s now1 now2) := by
  have hu8 : ∀ i : Int, toU8 i < 256 := by
    intro i; unfold toU8; omega
  have hv : ∀ step t v, P t → P (sequencerVoice M step t v) := by
    intro step t v ht
    unfold sequencerVoice
    split_ifs
    · exact htrig _ _ _ _ ht (hu8 _)
    · exact ht
  unfold updateSequencer
  split_ifs
  · exact hs
  · simp only [allVoices, List.foldl]
    exact hv _ _ _ (hv _ _ _ (hv _ _ _ (hv _ _ _ (hclock _ _ _ hs))))
  · exact hs

/-! ## Range of the stored voice parameters -/

theorem processVoice_voices (M : Libm F) (rnd : Fin NUM_VOICES → Int)
    (acc : MintySynth F × F × F) (v : Fin NUM_VOICES) :
    (processVoice M rnd acc v).1.voices = acc.1.voices := by
  unfold processVoice
  split_ifs <;> rfl

theorem setVoiceParam_voiceStoreBounded (M : Libm F) (s : MintySynth F) (voice param value : Nat)
    (hs : voiceStoreBounded s) : voiceStoreBounded (setVoiceParam M s voice param value) := by
  have e14 := toU8_constrain_nat value 14 (by decide)
  have e4 := toU8_constrain_nat value 4 (by decide)
  have e127 := toU8_constrain_nat value 127 (by decide)
  have b14 : toU8 (constrain (value : Int) 0 ((NUM_WAVEFORMS : Int) - 1)) ≤ 14 := by
    have : ((NUM_WAVEFORMS : Int) - 1) = ((14 : Nat) : Int) := by decide
    rw [this, e14]; omega
  have b4 : toU8 (constrain (value : Int) 0 4) ≤ 4 := by
    have := e4; push_cast at this; rw [this]; omega
  have b127 : toU8 (constrain (value : Int) 0 127) ≤ 127 := by
    have := e127; push_cast at this; rw [this]; omega
  unfold setVoiceParam
  by_cases hv : voice ≥ NUM_VOICES
  · rw [dif_pos hv]; exact hs
  · rw [dif_neg hv]
    intro w
    obtain ⟨h1, h2, h3, h4, h5, h6⟩ := hs w
    obtain ⟨g1, g2, g3, g4, g5, g6⟩ := hs ⟨voice, Nat.lt_of_not_ge hv⟩
    simp only [updateVoiceFrequencies_voices]
    by_cases hw : w = ⟨voice, Nat.lt_of_not_ge hv⟩
    · subst hw
      split_ifs <;> (try simp only [Function.update_same]) <;>
        refine ⟨?_, ?_, ?_, ?_, ?_, ?_⟩ <;> first | assumption | omega
    · split_ifs <;> (try simp only [Function.update_noteq hw]) <;>
        exact ⟨h1, h2, h3, h4, h5, h6⟩

theorem triggerVoice_voiceStoreBounded (M : Libm F) (s : MintySynth F) (voice note velocity : Nat)
    (hs : voiceStoreBounded s) (hn : note < 256) :
    voiceStoreBounded (triggerVoice M s voice note velocity) := by
  unfold triggerVoice
  by_cases hv : voice ≥ NUM_VOICES
  · rw [dif_pos hv]; exact hs
  · rw [dif_neg hv]
    intro w
    obtain ⟨h1, h2, h3, h4, h5, h6⟩ := hs w
    by_cases hw : w = ⟨voice, Nat.lt_of_not_ge hv⟩
    · subst hw
      simp only [Function.update_same]
      exact ⟨h1, by omega, h3, h4, h5, h6⟩
    · simp only [Function.update_noteq hw]
      exact ⟨h1, h2, h3, h4, h5, h6⟩

/-- In every reachable state the stored waveform is at most 14, the envelope kind at most
4, length, modulation and volume at most 127, and the pitch at most 255. -/
theorem reachable_voiceStoreBounded (M : Libm F) (s : MintySynth F) (hs : Reachable M s) :
    voiceStoreBounded s := by
  refine Reachable.invariant M voiceStoreBounded ?_ ?_ s hs
  · intro v
    simp only [new, calculateStepDuration]
    decide
  · intro s op ih hw
    cases op with
    | begin => exact ih
    | setVoiceParam voice param value =>
      exact setVoiceParam_voiceStoreBounded M s voice param value ih
    | setGlobalParam param value =>
      simp only [applyOp, setGlobalParam, setTempo, calculateStepDuration, updateVoiceFrequencies]
      split_ifs <;> exact ih
    | setTempo bpm => exact ih
    | triggerVoice voice note velocity =>
      exact triggerVoice_voiceStoreBounded M s voice note velocity ih hw.2.1
    | releaseVoice voice =>
      simp only [applyOp, releaseVoice]
      split_ifs <;> exact ih
    | setStep voice step note active =>
      simp only [applyOp, setStep]
      split_ifs <;> exact ih
    | clearStep voice step =>
      simp only [applyOp, clearStep]
      split_ifs <;> exact ih
    | start now => exact ih
    | stop => exact ih
    | updateSequencer now1 now2 =>
      exact updateSequencer_invariant M voiceStoreBounded
        (fun t v n vel ht hn => triggerVoice_voiceStoreBounded M t v n vel ht hn)
        (fun t c k ht => ht) s now1 now2 ih
    | processAudio random buffer length =>
      refine processAudio_invariant M random voiceStoreBounded ?_ s buffer length ih
      intro rnd acc v hacc w
      rw [processVoice_voices]
      exact hacc w

/-- C5, the code at the failing input: `triggerVoice(0, 200, 127)` on a fresh engine gives
a reachable state in which voice 0 has stored pitch 200, above the bound 127 of the range
invariant (`setVoiceParam` clamps the pitch, `triggerVoice` stores the note as it is). -/
theorem triggerVoice_pitch_out_of_range :
    Reachable realLibm (triggerVoice realLibm (new : MintySynth ℝ) 0 200 127)
      ∧ ((triggerVoice realLibm (new : MintySynth ℝ) 0 200 127).voices 0).pitch = 200
      ∧ ¬ ((triggerVoice realLibm (new : MintySynth ℝ) 0 200 127).voices 0).pitch ≤ 127 := by
  have hp : ((triggerVoice realLibm (new : MintySynth ℝ) 0 200 127).voices 0).pitch = 200 := by
    simp [triggerVoice]
  refine ⟨?_, hp, ?_⟩
  · exact Reachable.step new (Op.triggerVoice 0 200 127) Reachable.new
      (by simp [Op.wellTyped])
  · rw [hp]; decide

/-! ## Triggering a voice -/

theorem triggerVoice_eq (M : Libm F) (s : MintySynth F) (v n vel : Nat) (hv : v < NUM_VOICES) :
    triggerVoice M s v n vel =
      { s with
        voices := (Function.update s.voices ⟨v, hv⟩ { s.voices ⟨v, hv⟩ with pitch := n })
        voiceActive := (Function.update s.voiceActive ⟨v, hv⟩ true)
        voiceEnvPhase := (Function.update s.voiceEnvPhase ⟨v, hv⟩ 0)
        voicePhase := (Function.update s.voicePhase ⟨v, hv⟩ 0)
        voiceFreq := (Function.update s.voiceFreq ⟨v, hv⟩
          (440 * M.pow 2 ((((n : Int) - 69 : Int) : F) / 12))) } := by
  have hv' : ¬ (v ≥ NUM_VOICES) := by omega
  unfold triggerVoice
  rw [dif_neg hv']

theorem triggerVoice_other (M : Libm F) (s : MintySynth F) (v n vel : Nat) (hv : v < NUM_VOICES)
    (w : Fin NUM_VOICES) (hw : w ≠ ⟨v, hv⟩) :
    voiceState (triggerVoice M s v n vel) w = voiceState s w := by
  rw [triggerVoice_eq M s v n vel hv]
  simp only [voiceState, Function.update_noteq hw]

theorem triggerVoice_sharedState (M : Libm F) (s : MintySynth F) (v n vel : Nat) :
    sharedState (triggerVoice M s v n vel) = sharedState s := by
  unfold triggerVoice
  split_ifs <;> rfl

theorem triggerVoice_same (M : Libm F) (s : MintySynth F) (v n vel : Nat) (hv : v < NUM_VOICES) :
    voiceState (triggerVoice M s v n vel) ⟨v, hv⟩ =
      ({ s.voices ⟨v, hv⟩ with pitch := n }, 0,
        440 * M.pow 2 ((((n : Int) - 69 : Int) : F) / 12), 0, true) := by
  rw [triggerVoice_eq M s v n vel hv]
  simp only [voiceState, Function.update_same]

theorem triggerVoice_pitch (M : Libm F) (s : MintySynth F) (v n vel : Nat)
    (hv : v < NUM_VOICES) : ((triggerVoice M s v n vel).voices ⟨v, hv⟩).pitch = n := by
  rw [triggerVoice_eq M s v n vel hv]
  simp only [Function.update_same]

/-- Over the reals, the frequency of a voice just triggered with note `n` is
`440 * 2^((n - 69) / 12)`. -/
theorem triggerVoice_freq_real (s : MintySynth ℝ) (v n vel : Nat) (hv : v < NUM_VOICES) :
    (triggerVoice realLibm s v n vel).voiceFreq ⟨v, hv⟩
      = 440 * (2 : ℝ) ^ (((n : ℝ) - 69) / 12) := by
  rw [triggerVoice_eq realLibm s v n vel hv]
  simp only [Function.update_same, realLibm]
  push_cast
  rfl

/-- C7: for a voice `v < 4`, after `triggerVoice(v, n, velocity)` (whatever the state
before) voice `v` is active with oscillator phase 0 and envelope clock 0, its stored pitch
is `n` (its other parameters as before) and its frequency is `440 * 2^((n - 69) / 12)` over
the reals, which is exactly 440 for `n = 69` and exactly 880 for `n = 81`; every other
voice, the grid, the globals and the transport are unchanged; and triggering a second time
(with any velocity) gives the same state as triggering once. -/
theorem triggerVoice_spec (s : MintySynth ℝ) (v n vel vel2 : Nat) (hv : v < NUM_VOICES) :
    (triggerVoice realLibm s v n vel).voiceActive ⟨v, hv⟩ = true
      ∧ (triggerVoice realLibm s v n vel).voicePhase ⟨v, hv⟩ = 0
      ∧ (triggerVoice realLibm s v n vel).voiceEnvPhase ⟨v, hv⟩ = 0
      ∧ ((triggerVoice realLibm s v n vel).voices ⟨v, hv⟩).pitch = n
      ∧ (triggerVoice realLibm s v n vel).voices ⟨v, hv⟩ = { s.voices ⟨v, hv⟩ with pitch := n }
      ∧ (triggerVoice realLibm s v n vel).voiceFreq ⟨v, hv⟩
          = 440 * (2 : ℝ) ^ (((n : ℝ) - 69) / 12)
      ∧ (n = 69 → (triggerVoice realLibm s v n vel).voiceFreq ⟨v, hv⟩ = 440)
      ∧ (n = 81 → (triggerVoice realLibm s v n vel).voiceFreq ⟨v, hv⟩ = 880)
      ∧ (∀ w : Fin NUM_VOICES, w ≠ ⟨v, hv⟩ →
          voiceState (triggerVoice realLibm s v n vel) w = voiceState s w)
      ∧ sharedState (triggerVoice realLibm s v n vel) = sharedState s
      ∧ triggerVoice realLibm (triggerVoice realLibm s v n vel) v n vel2
          = triggerVoice realLibm s v n vel := by
  have hsame := triggerVoice_same realLibm s v n vel hv
  simp only [voiceState, Prod.mk.injEq] at hsame
  obtain ⟨h1, h2, h3, h4, h5⟩ := hsame
  have hf := triggerVoice_freq_real s v n vel hv
  refine ⟨h5, h2, h4, by rw [h1], h1, hf, ?_, ?_, ?_, ?_, ?_⟩
  · intro hn
    rw [hf, hn]
    norm_num
  · intro hn
    rw [hf, hn]
    norm_num
  · intro w hw
    exact triggerVoice_other realLibm s v n vel hv w hw
  · exact triggerVoice_sharedState realLibm s v n vel
  · rw [triggerVoice_eq realLibm _ v n vel2 hv, triggerVoice_eq realLibm s v n vel hv]
    simp only [Function.update_same, Function.update_idem]

/-- Witness for C7: note 69 triggered on voice 0 of a fresh engine. -/
theorem triggerVoice_spec_witness :
    0 < NUM_VOICES ∧
    ((triggerVoice realLibm (new : MintySynth ℝ) 0 69 127).voiceActive 0 = true
      ∧ (triggerVoice realLibm (new : MintySynth ℝ) 0 69 127).voicePhase 0 = 0
      ∧ (triggerVoice realLibm (new : MintySynth ℝ) 0 69 127).voiceEnvPhase 0 = 0
      ∧ ((triggerVoice realLibm (new : MintySynth ℝ) 0 69 127).voices 0).pitch = 69
      ∧ (triggerVoice realLibm (new : MintySynth ℝ) 0 69 127).voiceFreq 0 = 440
      ∧ (∀ w : Fin NUM_VOICES, w ≠ 0 →
          voiceState (triggerVoice realLibm (new : MintySynth ℝ) 0 69 127) w
            = voiceState (new : MintySynth ℝ) w)
      ∧ sharedState (triggerVoice realLibm (new : MintySynth ℝ) 0 69 127)
          = sharedState (new : MintySynth ℝ)
      ∧ triggerVoice realLibm (triggerVoice realLibm (new : MintySynth ℝ) 0 69 127) 0 69 90
          = triggerVoice realLibm (new : MintySynth ℝ) 0 69 127) :=
  have h := triggerVoice_spec (new : MintySynth ℝ) 0 69 127 90 (by decide)
  ⟨by decide, h.1, h.2.1, h.2.2.1, h.2.2.2.1, h.2.2.2.2.2.2.1 rfl, h.2.2.2.2.2.2.2.2.1,
    h.2.2.2.2.2.2.2.2.2.1, h.2.2.2.2.2.2.2.2.2.2⟩

/-! ## The pattern grid -/

/-- C8: for a voice `v < 4` and a step `st < 16`, after `setStep(v, st, note, active)` the
query `isStepActive(v, st)` returns `active` and the cell holds `note` (its velocity and
length as before); after `clearStep(v, st)` the query returns false and the cell's note is
unchanged; in both cases every other cell of the grid and every part of the state outside
the grid is unchanged. -/
theorem setStep_clearStep_spec (s : MintySynth F) (v st note : Nat) (a : Bool)
    (hv : v < NUM_VOICES) (hst : st < NUM_STEPS) :
    (isStepActive (setStep s v st note a) v st = a
      ∧ (setStep s v st note a).sequence ⟨v, hv⟩ ⟨st, hst⟩
          = { s.sequence ⟨v, hv⟩ ⟨st, hst⟩ with note := note, active := a }
      ∧ (∀ (w : Fin NUM_VOICES) (k : Fin NUM_STEPS), (w ≠ ⟨v, hv⟩ ∨ k ≠ ⟨st, hst⟩) →
          (setStep s v st note a).sequence w k = s.sequence w k)
      ∧ nonGridState (setStep s v st note a) = nonGridState s)
    ∧ (isStepActive (clearStep s v st) v st = false
      ∧ (clearStep s v st).sequence ⟨v, hv⟩ ⟨st, hst⟩
          = { s.sequence ⟨v, hv⟩ ⟨st, hst⟩ with active := false }
      ∧ ((clearStep s v st).sequence ⟨v, hv⟩ ⟨st, hst⟩).note
          = (s.sequence ⟨v, hv⟩ ⟨st, hst⟩).note
      ∧ (∀ (w : Fin NUM_VOICES) (k : Fin NUM_STEPS), (w ≠ ⟨v, hv⟩ ∨ k ≠ ⟨st, hst⟩) →
          (clearStep s v st).sequence w k = s.sequence w k)
      ∧ nonGridState (clearStep s v st) = nonGridState s) := by
  have hg : ¬ (v ≥ NUM_VOICES ∨ st ≥ NUM_STEPS) := by omega
  have hframe : ∀ (c : SequencerStep) (w : Fin NUM_VOICES) (k : Fin NUM_STEPS),
      (w ≠ ⟨v, hv⟩ ∨ k ≠ ⟨st, hst⟩) →
      Function.update s.sequence ⟨v, hv⟩
        (Function.update (s.sequence ⟨v, hv⟩) ⟨st, hst⟩ c) w k = s.sequence w k := by
    intro c w k hne
    by_cases hw : w = ⟨v, hv⟩
    · subst hw
      have hk : k ≠ ⟨st, hst⟩ := by
        rcases hne with h | h
        · exact absurd rfl h
        · exact h
      simp only [Function.update_same, Function.update_noteq hk]
    · simp only [Function.update_noteq hw]
  refine ⟨⟨?_, ?_, ?_, ?_⟩, ⟨?_, ?_, ?_, ?_, ?_⟩⟩
  · unfold isStepActive setStep
    simp only [dif_neg hg, Function.update_same]
  · unfold setStep
    simp only [dif_neg hg, Function.update_same]
  · intro w k hne
    unfold setStep
    simp only [dif_neg hg]
    exact hframe _ w k hne
  · unfold setStep
    simp only [dif_neg hg]
    rfl
  · unfold isStepActive clearStep
    simp only [dif_neg hg, Function.update_same]
  · unfold clearStep
    simp only [dif_neg hg, Function.update_same]
  · unfold clearStep
    simp only [dif_neg hg, Function.update_same]
  · intro w k hne
    unfold clearStep
    simp only [dif_neg hg]
    exact hframe _ w k hne
  · unfold clearStep
    simp only [dif_neg hg]
    rfl

/-- Witness for C8: cell (1, 5) of a fresh engine set to note 72, active. -/
theorem setStep_clearStep_spec_witness :
    (1 < NUM_VOICES ∧ 5 < NUM_STEPS) ∧
    ((isStepActive (setStep (new : MintySynth ℝ) 1 5 72 true) 1 5 = true
      ∧ (setStep (new : MintySynth ℝ) 1 5 72 true).sequence 1 5
          = { (new : MintySynth ℝ).sequence 1 5 with note := 72, active := true }
      ∧ (∀ (w : Fin NUM_VOICES) (k : Fin NUM_STEPS), (w ≠ 1 ∨ k ≠ 5) →
          (setStep (new : MintySynth ℝ) 1 5 72 true).sequence w k
            = (new : MintySynth ℝ).sequence w k)
      ∧ nonGridState (setStep (new : MintySynth ℝ) 1 5 72 true)
          = nonGridState (new : MintySynth ℝ))
    ∧ (isStepActive (clearStep (new : MintySynth ℝ) 1 5) 1 5 = false
      ∧ (clearStep (new : MintySynth ℝ) 1 5).sequence 1 5
          = { (new : MintySynth ℝ).sequence 1 5 with active := false }
      ∧ ((clearStep (new : MintySynth ℝ) 1 5).sequence 1 5).note
          = ((new : MintySynth ℝ).sequence 1 5).note
      ∧ (∀ (w : Fin NUM_VOICES) (k : Fin NUM_STEPS), (w ≠ 1 ∨ k ≠ 5) →
          (clearStep (new : MintySynth ℝ) 1 5).sequence w k
            = (new : MintySynth ℝ).sequence w k)
      ∧ nonGridState (clearStep (new : MintySynth ℝ) 1 5)
          = nonGridState (new : MintySynth ℝ))) :=
  ⟨by decide, setStep_clearStep_spec (new : MintySynth ℝ) 1 5 72 true (by decide) (by decide)⟩

/-! ## The step sequencer -/

theorem sequencerVoice_sharedState (M : Libm F) (step : Fin NUM_STEPS) (s : MintySynth F)
    (v : Fin NUM_VOICES) : sharedState (sequencerVoice M step s v) = sharedState s := by
  unfold sequencerVoice
  split_ifs
  · exact triggerVoice_sharedState M s _ _ _
  · rfl

theorem processVoice_sharedState (M : Libm F) (rnd : Fin NUM_VOICES → Int)
    (acc : MintySynth F × F × F) (v : Fin NUM_VOICES) :
    sharedState (processVoice M rnd acc v).1 = sharedState acc.1 := by
  unfold processVoice
  split_ifs <;> rfl

/-- A tick that does not observe an elapsed step returns the state unchanged. -/
theorem updateSequencer_not_elapsed (M : Libm F) (s : MintySynth F) (now1 now2 : Nat)
    (h : ¬ stepElapsed s now1) : updateSequencer M s now1 now2 = s := by
  unfold updateSequencer
  unfold stepElapsed at h
  by_cases hp : s.playing = true
  · have h2 : ¬ ((((now1 : Int) - (s.lastStepTime : Int)) % 4294967296) ≥ (s.stepDuration : Int)) :=
      fun hge => h ⟨hp, hge⟩
    simp only [hp, Bool.not_true, Bool.false_eq_true, if_false, if_neg h2]
  · simp only [Bool.not_eq_true] at hp
    simp only [hp, Bool.not_false, if_true]

/-- A tick that observes an elapsed step is the voice loop run on the state with the new
step index and step clock baseline. -/
theorem updateSequencer_elapsed (M : Libm F) (s : MintySynth F) (now1 now2 : Nat)
    (h : stepElapsed s now1) :
    updateSequencer M s now1 now2 =
      allVoices.foldl (sequencerVoice M (nextStep s))
        { s with currentStep := (nextStep s).val, lastStepTime := now2 } := by
  unfold updateSequencer
  obtain ⟨hp, hge⟩ := h
  have h2 : (((now1 : Int) - (s.lastStepTime : Int)) % 4294967296) ≥ (s.stepDuration : Int) := hge
  simp only [hp, Bool.not_true, Bool.false_eq_true, if_false, if_pos h2]

/-- The grid, globals and transport after a tick that observes an elapsed step: only the
step index and the step clock baseline change. -/
theorem updateSequencer_sharedState (M : Libm F) (s : MintySynth F) (now1 now2 : Nat)
    (h : stepElapsed s now1) :
    sharedState (updateSequencer M s now1 now2)
      = (s.sequence, s.globals, s.playing, (nextStep s).val, now2, s.stepDuration) := by
  rw [updateSequencer_elapsed M s now1 now2 h]
  simp only [allVoices, List.foldl, sequencerVoice_sharedState]
  rfl

theorem updateSequencer_currentStep_lt (M : Libm F) (s : MintySynth F) (now1 now2 : Nat)
    (hs : s.currentStep < NUM_STEPS) : (updateSequencer M s now1 now2).currentStep < NUM_STEPS := by
  by_cases h : stepElapsed s now1
  · have e := updateSequencer_sharedState M s now1 now2 h
    simp only [sharedState, Prod.mk.injEq] at e
    rw [e.2.2.2.1]
    exact (nextStep s).isLt
  · rw [updateSequencer_not_elapsed M s now1 now2 h]
    exact hs

theorem reachable_currentStep_lt (M : Libm F) (s : MintySynth F) (hs : Reachable M s) :
    s.currentStep < NUM_STEPS := by
  refine Reachable.invariant M (fun t => t.currentStep < NUM_STEPS) ?_ ?_ s hs
  · simp only [new, calculateStepDuration]
    decide
  · intro s op ih hw
    cases op with
    | begin => exact ih
    | setVoiceParam voice param value =>
      simp only [applyOp, setVoiceParam, updateVoiceFrequencies]
      split_ifs <;> exact ih
    | setGlobalParam param value =>
      simp only [applyOp, setGlobalParam, setTempo, calculateStepDuration, updateVoiceFrequencies]
      split_ifs <;> exact ih
    | setTempo bpm => exact ih
    | triggerVoice voice note velocity =>
      simp only [applyOp, triggerVoice]
      split_ifs <;> exact ih
    | releaseVoice voice =>
      simp only [applyOp, releaseVoice]
      split_ifs <;> exact ih
    | setStep voice step note active =>
      simp only [applyOp, setStep]
      split_ifs <;> exact ih
    | clearStep voice step =>
      simp only [applyOp, clearStep]
      split_ifs <;> exact ih
    | start now =>
      simp only [applyOp, start]
      decide
    | stop => exact ih
    | updateSequencer now1 now2 => exact updateSequencer_currentStep_lt M s now1 now2 ih
    | processAudio random buffer length =>
      refine processAudio_invariant M random (fun t => t.currentStep < NUM_STEPS) ?_ s buffer
        length ih
      intro rnd acc v hacc
      have e := processVoice_sharedState M rnd acc v
      simp only [sharedState, Prod.mk.injEq] at e
      rw [e.2.2.2.1]
      exact hacc

theorem runTicks_currentStep (M : Libm F) :
    ∀ (ticks : List (Nat × Nat)) (s : MintySynth F), s.currentStep < NUM_STEPS →
      allElapsed M s ticks →
      (runTicks M s ticks).currentStep = (s.currentStep + ticks.length) % NUM_STEPS := by
  intro ticks
  induction ticks with
  | nil =>
    intro s hs _
    simp only [runTicks, List.length_nil, Nat.add_zero]
    exact (Nat.mod_eq_of_lt hs).symm
  | cons t ticks ih =>
    intro s hs hel
    obtain ⟨h1, h2⟩ := hel
    have e := updateSequencer_sharedState M s t.1 t.2 h1
    simp only [sharedState, Prod.mk.injEq] at e
    have hc : (updateSequencer M s t.1 t.2).currentStep = (s.currentStep + 1) % NUM_STEPS :=
      e.2.2.2.1
    have hlt : (updateSequencer M s t.1 t.2).currentStep < NUM_STEPS := by
      rw [hc]; exact Nat.mod_lt _ (by decide)
    simp only [runTicks, List.length_cons]
    rw [ih _ hlt h2, hc]
    simp only [NUM_STEPS]
    omega

/-- C9: in every reachable state the step index is below 16; and starting from `start()`,
after the sequencer ticks of `ticks`, each of which observes an elapsed step while playing,
the step index equals the number of ticks modulo 16, so that after 16 such ticks it is 0
again. -/
theorem step_index_wraps (M : Libm F) (s : MintySynth F) (hs : Reachable M s)
    (s0 : MintySynth F) (now : Nat) (ticks : List (Nat × Nat))
    (hel : allElapsed M (start s0 now) ticks) :
    s.currentStep < NUM_STEPS
      ∧ (start s0 now).currentStep = 0
      ∧ (runTicks M (start s0 now) ticks).currentStep = ticks.length % NUM_STEPS
      ∧ (ticks.length = NUM_STEPS → (runTicks M (start s0 now) ticks).currentStep = 0) := by
  have h0 : (start s0 now).currentStep = 0 := rfl
  have h := runTicks_currentStep M ticks (start s0 now) (by rw [h0]; decide) hel
  rw [h0, Nat.zero_add] at h
  refine ⟨reachable_currentStep_lt M s hs, h0, h, ?_⟩
  intro hlen
  rw [h, hlen]
  decide

/-- Ticks spaced one step duration apart, starting one step duration after the step clock
baseline, all observe an elapsed step. -/
theorem allElapsed_regularTicks (M : Libm F) :
    ∀ (k : Nat) (s : MintySynth F), s.playing = true → s.stepDuration < 4294967296 →
      allElapsed M s (regularTicks s.lastStepTime s.stepDuration k) := by
  intro k
  induction k with
  | zero =>
    intro s _ _
    exact trivial
  | succ k ih =>
    intro s hp hd
    have e1 : stepElapsed s (s.lastStepTime + s.stepDuration) := by
      refine ⟨hp, ?_⟩
      push_cast
      omega
    have sh := updateSequencer_sharedState M s (s.lastStepTime + s.stepDuration)
      (s.lastStepTime + s.stepDuration) e1
    simp only [sharedState, Prod.mk.injEq] at sh
    obtain ⟨_, _, hp2, _, hl2, hd2⟩ := sh
    refine ⟨e1, ?_⟩
    have := ih (updateSequencer M s (s.lastStepTime + s.stepDuration)
      (s.lastStepTime + s.stepDuration)) (by rw [hp2]; exact hp) (by rw [hd2]; exact hd)
    rw [hl2, hd2] at this
    exact this

theorem regularTicks_length (a d : Nat) : ∀ k, (regularTicks a d k).length = k := by
  intro k
  induction k generalizing a with
  | zero => rfl
  | succ k ih => simp only [regularTicks, List.length_cons, ih]

/-- A fresh engine started at time 0 has step duration 125 ms, and the sixteen ticks at
times 125, 250, ..., 2000 all observe an elapsed step. -/
theorem allElapsed_sixteen_ticks :
    allElapsed realLibm (start (new : MintySynth ℝ) 0) (regularTicks 0 125 16) :=
  allElapsed_regularTicks realLibm 16 (start (new : MintySynth ℝ) 0) rfl
    (by simp only [start, new, calculateStepDuration]; norm_num)

/-- Witness for C9: a fresh engine, started at time 0 and ticked sixteen times, one step
duration apart, is back at step index 0. -/
theorem step_index_wraps_witness :
    (Reachable realLibm (new : MintySynth ℝ)
      ∧ allElapsed realLibm (start (new : MintySynth ℝ) 0) (regularTicks 0 125 16))
    ∧ ((new : MintySynth ℝ).currentStep < NUM_STEPS
      ∧ (start (new : MintySynth ℝ) 0).currentStep = 0
      ∧ (runTicks realLibm (start (new : MintySynth ℝ) 0) (regularTicks 0 125 16)).currentStep
          = (regularTicks 0 125 16).length % NUM_STEPS
      ∧ ((regularTicks 0 125 16).length = NUM_STEPS →
          (runTicks realLibm (start (new : MintySynth ℝ) 0)
            (regularTicks 0 125 16)).currentStep = 0)) :=
  ⟨⟨Reachable.new, allElapsed_sixteen_ticks⟩,
    step_index_wraps realLibm new Reachable.new new 0 (regularTicks 0 125 16)
      allElapsed_sixteen_ticks⟩

/-! ## Sequencer triggers, voice by voice -/

theorem sequencerVoice_other (M : Libm F) (step : Fin NUM_STEPS) (s : MintySynth F)
    (v w : Fin NUM_VOICES) (hw : w ≠ v) :
    voiceState (sequencerVoice M step s v) w = voiceState s w := by
  unfold sequencerVoice
  split_ifs
  · exact triggerVoice_other M s v.val _ _ v.isLt w hw
  · rfl

/-- The body of the sequencer's voice loop, on its own voice: an active cell triggers the
voice with the cell's note plus the transpose, narrowed to 8 bits. -/
theorem sequencerVoice_same (M : Libm F) (step : Fin NUM_STEPS) (s : MintySynth F)
    (v : Fin NUM_VOICES) :
    voiceState (sequencerVoice M step s v) v =
      if (s.sequence v step).active then
        ({ s.voices v with
            pitch := toU8 (((s.sequence v step).note : Int) + s.globals.transpose) }, 0,
          440 * M.pow 2
            ((((toU8 (((s.sequence v step).note : Int) + s.globals.transpose) : Int) - 69 : Int)
              : F) / 12), 0, true)
      else voiceState s v := by
  unfold sequencerVoice
  split_ifs
  · exact triggerVoice_same M s v.val _ _ v.isLt
  · rfl

theorem sequencerVoice_congr (M : Libm F) (step : Fin NUM_STEPS) (s t : MintySynth F)
    (v : Fin NUM_VOICES) (hsh : sharedState t = sharedState s)
    (hv : voiceState t v = voiceState s v) :
    voiceState (sequencerVoice M step t v) v = voiceState (sequencerVoice M step s v) v := by
  rw [sequencerVoice_same, sequencerVoice_same, hv]
  simp only [sharedState, voiceState, Prod.mk.injEq] at hsh hv
  rw [hsh.1, hsh.2.1, hv.1]

theorem foldl_sequencerVoice (M : Libm F) (step : Fin NUM_STEPS) :
    ∀ (l : List (Fin NUM_VOICES)) (s : MintySynth F), l.Nodup →
      sharedState (l.foldl (sequencerVoice M step) s) = sharedState s
        ∧ ∀ w, voiceState (l.foldl (sequencerVoice M step) s) w
            = if w ∈ l then voiceState (sequencerVoice M step s w) w else voiceState s w := by
  intro l
  induction l with
  | nil =>
    intro s _
    simp only [List.foldl, List.not_mem_nil, if_false, implies_true, and_self]
  | cons u l ih =>
    intro s hnd
    obtain ⟨hu, hl⟩ := List.nodup_cons.mp hnd
    obtain ⟨ih1, ih2⟩ := ih (sequencerVoice M step s u) hl
    have hsh := sequencerVoice_sharedState M step s u
    refine ⟨?_, ?_⟩
    · simp only [List.foldl]
      rw [ih1, hsh]
    · intro w
      simp only [List.foldl]
      rw [ih2 w]
      by_cases hwl : w ∈ l
      · have hwu : w ≠ u := fun h => hu (h ▸ hwl)
        have hmem : w ∈ u :: l := List.mem_cons_of_mem u hwl
        rw [if_pos hwl, if_pos hmem]
        exact sequencerVoice_congr M step s _ w hsh (sequencerVoice_other M step s u w hwu)
      · rw [if_neg hwl]
        by_cases hwu : w = u
        · subst hwu
          rw [if_pos (List.mem_cons_self _ _)]
        · have hmem : ¬ w ∈ u :: l := by
            intro h
            rcases List.mem_cons.mp h with h | h
            · exact hwu h
            · exact hwl h
          rw [if_neg hmem]
          exact sequencerVoice_other M step s u w hwu

/-- The state of voice `v` after a tick that observes an elapsed step: triggered with the
cell's note plus the transpose, narrowed to 8 bits, if cell `(v, nextStep)` is active, and
unchanged otherwise. -/
theorem updateSequencer_voiceState (M : Libm F) (s : MintySynth F) (now1 now2 : Nat)
    (h : stepElapsed s now1) (v : Fin NUM_VOICES) :
    voiceState (updateSequencer M s now1 now2) v =
      if (s.sequence v (nextStep s)).active then
        ({ s.voices v with
            pitch := toU8 (((s.sequence v (nextStep s)).note : Int) + s.globals.transpose) }, 0,
          440 * M.pow 2
            ((((toU8 (((s.sequence v (nextStep s)).note : Int) + s.globals.transpose) : Int)
              - 69 : Int) : F) / 12), 0, true)
      else voiceState s v := by
  rw [updateSequencer_elapsed M s now1 now2 h]
  have hnd : allVoices.Nodup := by decide
  have hmem : v ∈ allVoices := by
    fin_cases v <;> decide
  rw [(foldl_sequencerVoice M (nextStep s) allVoices _ hnd).2 v, if_pos hmem,
    sequencerVoice_same]
  rfl

/-- The sequencer's trigger when the transposed note fits the 8-bit note parameter: on a
tick that observes an elapsed step, a voice whose cell at the new step index is active with
note `n`, where `0 ≤ n + transpose ≤ 255`, ends active with phase 0, envelope clock 0,
stored pitch `n + transpose` and frequency `440 * 2^((n + transpose - 69) / 12)`; a voice
whose cell is inactive keeps its parameters and runtime state. -/
theorem updateSequencer_triggers_in_range (s : MintySynth ℝ) (now1 now2 : Nat)
    (h : stepElapsed s now1) (v : Fin NUM_VOICES) :
    ((s.sequence v (nextStep s)).active = true →
        0 ≤ ((s.sequence v (nextStep s)).note : Int) + s.globals.transpose →
        ((s.sequence v (nextStep s)).note : Int) + s.globals.transpose ≤ 255 →
        (updateSequencer realLibm s now1 now2).voiceActive v = true
          ∧ (updateSequencer realLibm s now1 now2).voicePhase v = 0
          ∧ (updateSequencer realLibm s now1 now2).voiceEnvPhase v = 0
          ∧ (((updateSequencer realLibm s now1 now2).voices v).pitch : Int)
              = ((s.sequence v (nextStep s)).note : Int) + s.globals.transpose
          ∧ (updateSequencer realLibm s now1 now2).voiceFreq v
              = 440 * (2 : ℝ) ^ ((((s.sequence v (nextStep s)).note : ℝ)
                  + (s.globals.transpose : ℝ) - 69) / 12))
      ∧ ((s.sequence v (nextStep s)).active = false →
          voiceState (updateSequencer realLibm s now1 now2) v = voiceState s v) := by
  have hvs := updateSequencer_voiceState realLibm s now1 now2 h v
  constructor
  · intro hact h0 h255
    rw [if_pos hact] at hvs
    simp only [voiceState, Prod.mk.injEq] at hvs
    obtain ⟨h1, h2, h3, h4, h5⟩ := hvs
    have hu : (toU8 (((s.sequence v (nextStep s)).note : Int) + s.globals.transpose) : Int)
        = ((s.sequence v (nextStep s)).note : Int) + s.globals.transpose := by
      unfold toU8
      omega
    refine ⟨h5, h2, h4, ?_, ?_⟩
    · rw [h1]
      exact hu
    · rw [h3, hu]
      simp only [realLibm]
      push_cast
      rfl
  · intro hact
    rw [hact] at hvs
    simpa using hvs

theorem lowNoteTransposedDown_reachable :
    Reachable realLibm (lowNoteTransposedDown realLibm) := by
  unfold lowNoteTransposedDown
  have r1 := Reachable.step (new : MintySynth ℝ) (Op.setStep 0 1 0 true)
    (Reachable.new : Reachable realLibm new) (by simp [Op.wellTyped])
  have r2 := Reachable.step _ (Op.setGlobalParam GLOBAL_TRANSPOSE 65524) r1
    (by simp only [Op.wellTyped]; decide)
  exact Reachable.step _ (Op.start 0) r2 (by simp [Op.wellTyped])

theorem lowNoteTransposedDown_elapsed : stepElapsed (lowNoteTransposedDown realLibm) 125 := by
  refine ⟨rfl, ?_⟩
  have hd : (lowNoteTransposedDown realLibm).stepDuration = 125 := by
    simp [lowNoteTransposedDown, start, setGlobalParam, updateVoiceFrequencies, setStep, new,
      calculateStepDuration]
  have hl : (lowNoteTransposedDown realLibm).lastStepTime = 0 := rfl
  rw [hd, hl]
  norm_num

theorem lowNoteTransposedDown_nextStep : nextStep (lowNoteTransposedDown realLibm) = 1 := by
  apply Fin.ext
  simp [nextStep, lowNoteTransposedDown, start]

theorem lowNoteTransposedDown_cell :
    (lowNoteTransposedDown realLibm).sequence 0 1
      = { note := 0, active := true, velocity := 127, length := 50 } := by
  simp [lowNoteTransposedDown, start, setGlobalParam, updateVoiceFrequencies, setStep, new,
    calculateStepDuration]

theorem lowNoteTransposedDown_transpose :
    (lowNoteTransposedDown realLibm).globals.transpose = -12 := by
  simp [lowNoteTransposedDown, start, setGlobalParam, updateVoiceFrequencies, setStep, new,
    calculateStepDuration, toI16, constrain]

/-- C10, the code at the failing input: with cell (0, 1) active at note 0 and transpose
-12, the tick that advances to step 1 triggers voice 0 with the 8-bit value 244 in place of
`0 + (-12)`: the stored pitch is 244 and the frequency is `440 * 2^(175 / 12)`, which is not
`440 * 2^((0 + (-12) - 69) / 12)`. -/
theorem updateSequencer_note_wraps :
    Reachable realLibm (lowNoteTransposedDown realLibm)
      ∧ stepElapsed (lowNoteTransposedDown realLibm) 125
      ∧ nextStep (lowNoteTransposedDown realLibm) = 1
      ∧ ((lowNoteTransposedDown realLibm).sequence 0 1).active = true
      ∧ ((lowNoteTransposedDown realLibm).sequence 0 1).note = 0
      ∧ (lowNoteTransposedDown realLibm).globals.transpose = -12
      ∧ ((updateSequencer realLibm (lowNoteTransposedDown realLibm) 125 125).voices 0).pitch
          = 244
      ∧ (updateSequencer realLibm (lowNoteTransposedDown realLibm) 125 125).voiceFreq 0
          = 440 * (2 : ℝ) ^ ((175 : ℝ) / 12)
      ∧ (updateSequencer realLibm (lowNoteTransposedDown realLibm) 125 125).voiceFreq 0
          ≠ 440 * (2 : ℝ) ^ (((0 : ℝ) + (-12) - 69) / 12) := by
  have hreach := lowNoteTransposedDown_reachable
  have hel := lowNoteTransposedDown_elapsed
  have hstep := lowNoteTransposedDown_nextStep
  have hcell := lowNoteTransposedDown_cell
  have htr := lowNoteTransposedDown_transpose
  have hvs := updateSequencer_voiceState realLibm (lowNoteTransposedDown realLibm) 125 125 hel 0
  rw [hstep, hcell, htr] at hvs
  have hu : toU8 (((0 : Nat) : Int) + (-12)) = 244 := by decide
  simp only [if_true, hu, voiceState, Prod.mk.injEq] at hvs
  obtain ⟨h1, _, h3, _, _⟩ := hvs
  have hf : (updateSequencer realLibm (lowNoteTransposedDown realLibm) 125 125).voiceFreq 0
      = 440 * (2 : ℝ) ^ ((175 : ℝ) / 12) := by
    rw [h3]
    simp only [realLibm]
    norm_num
  have hbig : (1 : ℝ) < (2 : ℝ) ^ ((175 : ℝ) / 12) :=
    Real.one_lt_rpow (by norm_num) (by norm_num)
  have hsmall : (2 : ℝ) ^ (((0 : ℝ) + (-12) - 69) / 12) < 1 :=
    Real.rpow_lt_one_of_one_lt_of_neg (by norm_num) (by norm_num)
  refine ⟨hreach, hel, hstep, by rw [hcell], by rw [hcell], htr, by rw [h1], hf, ?_⟩
  rw [hf]
  intro heq
  have : (2 : ℝ) ^ ((175 : ℝ) / 12) = (2 : ℝ) ^ (((0 : ℝ) + (-12) - 69) / 12) := by
    linarith
  linarith

/-! ## Frequencies after a change of pitch or transpose -/

/-- C15: over the reals the waveform generator is `sin p` for `WAVE_SINE`; `+1` if `p < π`
else `-1` for `WAVE_SQUARE` (so `+1` on `[0, π)` and `-1` on `[π, 2π)`); `p / π - 1` for
`WAVE_SAW`; `2p/π - 1` if `p < π` else `3 - 2p/π` for `WAVE_TRIANGLE` (so `-1` at phase 0
and `+1` at phase `π`); and `sin p` for every kind `k` other than 0, 2, 3, 4 and 5. -/
theorem getWaveformSample_reference (rnd : Int) (k : Nat) (p : ℝ)
    (hk : k ≠ WAVE_SINE ∧ k ≠ WAVE_TRIANGLE ∧ k ≠ WAVE_SQUARE ∧ k ≠ WAVE_NOISE ∧ k ≠ WAVE_SAW) :
    getWaveformSample realLibm rnd WAVE_SINE p = Real.sin p
      ∧ getWaveformSample realLibm rnd WAVE_SQUARE p = (if p < Real.pi then 1 else -1)
      ∧ (p < Real.pi → getWaveformSample realLibm rnd WAVE_SQUARE p = 1)
      ∧ (Real.pi ≤ p → getWaveformSample realLibm rnd WAVE_SQUARE p = -1)
      ∧ getWaveformSample realLibm rnd WAVE_SAW p = p / Real.pi - 1
      ∧ getWaveformSample realLibm rnd WAVE_TRIANGLE p
          = (if p < Real.pi then 2 * p / Real.pi - 1 else 3 - 2 * p / Real.pi)
      ∧ getWaveformSample realLibm rnd WAVE_TRIANGLE 0 = -1
      ∧ getWaveformSample realLibm rnd WAVE_TRIANGLE Real.pi = 1
      ∧ getWaveformSample realLibm rnd k p = Real.sin p := by
  have hpi : Real.pi ≠ 0 := Real.pi_ne_zero
  have hpos : (0 : ℝ) < Real.pi := Real.pi_pos
  obtain ⟨h0, h2, h3, h4, h5⟩ := hk
  refine ⟨?_, ?_, ?_, ?_, ?_, ?_, ?_, ?_, ?_⟩
  · simp [getWaveformSample, realLibm]
  · simp [getWaveformSample, realLibm]
  · intro h
    simp [getWaveformSample, realLibm, h]
  · intro h
    have h' : ¬ p < Real.pi := not_lt.mpr h
    simp [getWaveformSample, realLibm, h']
  · simp only [getWaveformSample, realLibm]
    norm_num
    field_simp
    ring
  · simp [getWaveformSample, realLibm]
  · simp [getWaveformSample, realLibm, hpos]
  · simp only [getWaveformSample, realLibm]
    norm_num
    field_simp
    norm_num
  · simp only [getWaveformSample, realLibm, if_neg h0, if_neg h2, if_neg h3, if_neg h4,
      if_neg h5]

/-- Witness for C15: `WAVE_RAMP` (kind 1) at phase 1. -/
theorem getWaveformSample_reference_witness :
    (WAVE_RAMP ≠ WAVE_SINE ∧ WAVE_RAMP ≠ WAVE_TRIANGLE ∧ WAVE_RAMP ≠ WAVE_SQUARE
      ∧ WAVE_RAMP ≠ WAVE_NOISE ∧ WAVE_RAMP ≠ WAVE_SAW)
    ∧ (getWaveformSample realLibm 0 WAVE_SINE 1 = Real.sin 1
      ∧ getWaveformSample realLibm 0 WAVE_SQUARE 1 = (if (1 : ℝ) < Real.pi then 1 else -1)
      ∧ ((1 : ℝ) < Real.pi → getWaveformSample realLibm 0 WAVE_SQUARE 1 = 1)
      ∧ (Real.pi ≤ 1 → getWaveformSample realLibm 0 WAVE_SQUARE 1 = -1)
      ∧ getWaveformSample realLibm 0 WAVE_SAW 1 = 1 / Real.pi - 1
      ∧ getWaveformSample realLibm 0 WAVE_TRIANGLE 1
          = (if (1 : ℝ) < Real.pi then 2 * 1 / Real.pi - 1 else 3 - 2 * 1 / Real.pi)
      ∧ getWaveformSample realLibm 0 WAVE_TRIANGLE 0 = -1
      ∧ getWaveformSample realLibm 0 WAVE_TRIANGLE Real.pi = 1
      ∧ getWaveformSample realLibm 0 WAVE_RAMP 1 = Real.sin 1) :=
  ⟨by decide, getWaveformSample_reference 0 WAVE_RAMP 1 (by decide)⟩

/-- C16: for every waveform kind, every value of the noise source from -32767 to 32766 and
every real phase `p` with `0 ≤ p < 2π`, the waveform sample lies in `[-1, 1]`. -/
theorem getWaveformSample_range (rnd : Int) (k : Nat) (p : ℝ)
    (hr : -32767 ≤ rnd ∧ rnd ≤ 32766) (hp0 : 0 ≤ p) (hp : p < 2 * Real.pi) :
    -1 ≤ getWaveformSample realLibm rnd k p ∧ getWaveformSample realLibm rnd k p ≤ 1 := by
  have hpos : (0 : ℝ) < Real.pi := Real.pi_pos
  have hsin := Real.sin_le_one p
  have hsin' := Real.neg_one_le_sin p
  have hq0 : 0 ≤ p / Real.pi := div_nonneg hp0 hpos.le
  have hq2 : p / Real.pi < 2 := by
    rw [div_lt_iff₀ hpos]
    linarith
  have hsaw : 2 * p / (2 * Real.pi) = p / Real.pi := by
    field_simp
    ring
  have htri : 2 * p / Real.pi = 2 * (p / Real.pi) := by
    ring
  have hr1 : (-32767 : ℝ) ≤ (rnd : ℝ) := by exact_mod_cast hr.1
  have hr2 : (rnd : ℝ) ≤ 32766 := by exact_mod_cast hr.2
  unfold getWaveformSample
  simp only [realLibm]
  split_ifs with h0 h3 hlt h5 h2 hlt2 h4
  · exact ⟨hsin', hsin⟩
  · constructor <;> norm_num
  · constructor <;> norm_num
  · rw [hsaw]
    constructor <;> linarith
  · rw [htri]
    have : p / Real.pi < 1 := by
      rw [div_lt_iff₀ hpos]
      linarith
    constructor <;> linarith
  · rw [htri]
    have : 1 ≤ p / Real.pi := by
      rw [le_div_iff₀ hpos]
      linarith [not_lt.mp hlt2]
    constructor <;> linarith
  · constructor
    · rw [le_div_iff₀ (by norm_num)]
      linarith
    · rw [div_le_iff₀ (by norm_num)]
      linarith
  · exact ⟨hsin', hsin⟩

/-- Witness for C16: the noise kind with the source at its minimum -32767, at phase 0. -/
theorem getWaveformSample_range_witness :
    ((-32767 : Int) ≤ -32767 ∧ (-32767 : Int) ≤ 32766) ∧ (0 : ℝ) ≤ 0 ∧ (0 : ℝ) < 2 * Real.pi
      ∧ -1 ≤ getWaveformSample realLibm (-32767) WAVE_NOISE 0
      ∧ getWaveformSample realLibm (-32767) WAVE_NOISE 0 ≤ 1 :=
  ⟨by decide, le_refl 0, by linarith [Real.pi_pos],
    getWaveformSample_range (-32767) WAVE_NOISE 0 (by decide) (le_refl 0)
      (by linarith [Real.pi_pos])⟩

/-! ## The envelope generator -/

/-- C17: for every envelope kind (the fallback kinds above 4 included) and every tick count
`t`, the envelope gain over the reals, with normalized time `t / 1000`, lies in `[0, 1]`. -/
theorem getEnvelopeSample_range (k t : Nat) :
    0 ≤ getEnvelopeSample realLibm k t ∧ getEnvelopeSample realLibm k t ≤ 1 := by
  have ht : (0 : ℝ) ≤ (t : ℝ) / 1000 := div_nonneg (Nat.cast_nonneg t) (by norm_num)
  unfold getEnvelopeSample
  simp only [realLibm]
  split_ifs with h0 hlt h1 hlt1 h2 h3 hlt3 h4 hlt4
  · exact ⟨ht, hlt.le⟩
  · constructor <;> norm_num
  · constructor <;> linarith
  · constructor <;> norm_num
  · exact ⟨(Real.exp_pos _).le, Real.exp_le_one_iff.mpr (by linarith)⟩
  · constructor <;> norm_num
  · exact ⟨(Real.exp_pos _).le, Real.exp_le_one_iff.mpr (by linarith [not_lt.mp hlt3])⟩
  · constructor <;> linarith
  · constructor <;> norm_num
  · exact ⟨(Real.exp_pos _).le, Real.exp_le_one_iff.mpr (by linarith)⟩

/-- Over the reals the pluck gain at tick `u` is `exp(-3 * u / 1000)`. -/
theorem getEnvelopeSample_pluck_real (u : Nat) :
    getEnvelopeSample realLibm ENV_PLUCK u = Real.exp (-3 * (u : ℝ) / 1000) := by
  simp only [getEnvelopeSample, realLibm]
  norm_num
  ring_nf

/-- The real number `exp(-120)` is at most `2^-150`, half the least positive `float`. -/
theorem exp_neg_120_le : Real.exp (-120) ≤ 1 / 2 ^ 150 := by
  have h1 : (2.7182818283 : ℝ) < Real.exp 1 := Real.exp_one_gt_d9
  have h4 : (2 : ℝ) ^ 5 ≤ Real.exp 1 ^ 4 := by
    have h27 : (2.7 : ℝ) ≤ Real.exp 1 := by linarith
    calc (2 : ℝ) ^ 5 ≤ (2.7 : ℝ) ^ 4 := by norm_num
      _ ≤ Real.exp 1 ^ 4 := pow_le_pow_left₀ (by norm_num) h27 4
  have h120 : (2 : ℝ) ^ 150 ≤ Real.exp 120 := by
    have e : Real.exp 120 = (Real.exp 1 ^ 4) ^ 30 := by
      rw [← pow_mul, Real.exp_one_pow]
      norm_num
    rw [e]
    calc (2 : ℝ) ^ 150 = ((2 : ℝ) ^ 5) ^ 30 := by rw [← pow_mul]
      _ ≤ (Real.exp 1 ^ 4) ^ 30 := pow_le_pow_left₀ (by positivity) h4 30
  rw [Real.exp_neg, ← one_div]
  exact one_div_le_one_div_of_le (by positivity) h120

/-- From tick 40000 on, the exact pluck gain `exp(-3 * u / 1000)` is at most `2^-150`, and
the `float` that `getEnvelopeSample` returns is 0. -/
theorem pluck_gain_underflow (u : Nat) (hu : 40000 ≤ u) :
    getEnvelopeSample realLibm ENV_PLUCK u ≤ 1 / 2 ^ 150
      ∧ getEnvelopeSampleFloat realLibm ENV_PLUCK u = 0 := by
  have hle : getEnvelopeSample realLibm ENV_PLUCK u ≤ 1 / 2 ^ 150 := by
    rw [getEnvelopeSample_pluck_real]
    have hu' : (40000 : ℝ) ≤ (u : ℝ) := by exact_mod_cast hu
    have : Real.exp (-3 * (u : ℝ) / 1000) ≤ Real.exp (-120) :=
      Real.exp_le_exp.mpr (by linarith)
    exact this.trans exp_neg_120_le
  refine ⟨hle, ?_⟩
  have hpos : 0 ≤ getEnvelopeSample realLibm ENV_PLUCK u := by
    rw [getEnvelopeSample_pluck_real]
    exact (Real.exp_pos _).le
  unfold getEnvelopeSampleFloat narrowToFloat
  rw [abs_of_nonneg hpos, if_pos hle]

/-- Counterexample to C18 as stated: the 16-bit tick counts 40000 < 40001 both give the
returned pluck gain 0, because the exact values, at most `exp(-120)`, underflow in the
`float` return; the returned gain is neither strictly decreasing nor strictly positive
there. -/
theorem pluck_gain_float_not_decreasing :
    (40000 < 40001 ∧ 40001 < 65536)
      ∧ getEnvelopeSampleFloat realLibm ENV_PLUCK 40000 = 0
      ∧ getEnvelopeSampleFloat realLibm ENV_PLUCK 40001 = 0
      ∧ ¬ (getEnvelopeSampleFloat realLibm ENV_PLUCK 40001
            < getEnvelopeSampleFloat realLibm ENV_PLUCK 40000)
      ∧ ¬ (0 < getEnvelopeSampleFloat realLibm ENV_PLUCK 40000) := by
  have h0 := (pluck_gain_underflow 40000 (by decide)).2
  have h1 := (pluck_gain_underflow 40001 (by decide)).2
  refine ⟨by decide, h0, h1, ?_, ?_⟩
  · rw [h0, h1]; exact lt_irrefl 0
  · rw [h0]; exact lt_irrefl 0

/-- C18, amended: over exact real arithmetic the pluck gain is `exp(-3 * t / 1000)`,
strictly decreasing in the tick count (`t1 < t2` gives `gain(PLUCK, t2) < gain(PLUCK, t1)`)
and strictly positive, and the attack gain is 0 at tick 0 and 1 at every tick count
`t ≥ 1000`; the attack values 0 and 1 are also the `float` values returned. The pluck gain
returned as a `float` is 0 at every tick count `u ≥ 40000`, where the exact value is at most
`2^-150`. -/
theorem envelope_shapes (t1 t2 t u : Nat) :
    getEnvelopeSample realLibm ENV_PLUCK t1 = Real.exp (-3 * (t1 : ℝ) / 1000)
      ∧ (t1 < t2 →
          getEnvelopeSample realLibm ENV_PLUCK t2 < getEnvelopeSample realLibm ENV_PLUCK t1)
      ∧ 0 < getEnvelopeSample realLibm ENV_PLUCK t1
      ∧ getEnvelopeSample realLibm ENV_ATTACK 0 = 0
      ∧ (1000 ≤ t → getEnvelopeSample realLibm ENV_ATTACK t = 1)
      ∧ getEnvelopeSampleFloat realLibm ENV_ATTACK 0 = 0
      ∧ (1000 ≤ t → getEnvelopeSampleFloat realLibm ENV_ATTACK t = 1)
      ∧ (40000 ≤ u → getEnvelopeSample realLibm ENV_PLUCK u ≤ 1 / 2 ^ 150
          ∧ getEnvelopeSampleFloat realLibm ENV_PLUCK u = 0) := by
  have ha0 : getEnvelopeSample realLibm ENV_ATTACK 0 = 0 := by
    simp [getEnvelopeSample, realLibm]
  have ha1 : 1000 ≤ t → getEnvelopeSample realLibm ENV_ATTACK t = 1 := by
    intro ht
    have h1 : ¬ ((t : ℝ) / 1000 < 1) := by
      rw [not_lt, le_div_iff₀ (by norm_num)]
      have : (1000 : ℝ) ≤ (t : ℝ) := by exact_mod_cast ht
      linarith
    simp only [getEnvelopeSample, realLibm]
    simp [h1]
  refine ⟨getEnvelopeSample_pluck_real t1, ?_, ?_, ha0, ha1, ?_, ?_, pluck_gain_underflow u⟩
  · intro h12
    have hlt : (t1 : ℝ) < (t2 : ℝ) := by exact_mod_cast h12
    rw [getEnvelopeSample_pluck_real t1, getEnvelopeSample_pluck_real t2]
    apply Real.exp_lt_exp.mpr
    linarith
  · rw [getEnvelopeSample_pluck_real t1]
    exact Real.exp_pos _
  · unfold getEnvelopeSampleFloat narrowToFloat
    rw [ha0]
    simp
  · intro ht
    unfold getEnvelopeSampleFloat narrowToFloat
    rw [ha1 ht, if_neg]
    rw [abs_one, not_le]
    have : (0 : ℝ) < 2 ^ 150 := by positivity
    rw [div_lt_one this]
    exact one_lt_pow₀ (by norm_num) (by norm_num)

/-- Witness for the amended C18: ticks 0 and 1 for the pluck comparison, tick 1000 for the
attack, tick 40000 for the underflow. -/
theorem envelope_shapes_witness :
    (0 < 1 ∧ 1000 ≤ 1000 ∧ 40000 ≤ 40000)
    ∧ (getEnvelopeSample realLibm ENV_PLUCK 0 = Real.exp (-3 * ((0 : Nat) : ℝ) / 1000)
      ∧ getEnvelopeSample realLibm ENV_PLUCK 1 < getEnvelopeSample realLibm ENV_PLUCK 0
      ∧ 0 < getEnvelopeSample realLibm ENV_PLUCK 0
      ∧ getEnvelopeSample realLibm ENV_ATTACK 0 = 0
      ∧ getEnvelopeSample realLibm ENV_ATTACK 1000 = 1
      ∧ getEnvelopeSampleFloat realLibm ENV_ATTACK 0 = 0
      ∧ getEnvelopeSampleFloat realLibm ENV_ATTACK 1000 = 1
      ∧ getEnvelopeSample realLibm ENV_PLUCK 40000 ≤ 1 / 2 ^ 150
      ∧ getEnvelopeSampleFloat realLibm ENV_PLUCK 40000 = 0) :=
  have h := envelope_shapes 0 1 1000 40000
  ⟨by decide, h.1, h.2.1 (by decide), h.2.2.1, h.2.2.2.1, h.2.2.2.2.1 (by decide),
    h.2.2.2.2.2.1, h.2.2.2.2.2.2.1 (by decide), (h.2.2.2.2.2.2.2 (by decide)).1,
    (h.2.2.2.2.2.2.2 (by decide)).2⟩

/-! ## The renderer, voice by voice -/

theorem processVoice_inactive (M : Libm F) (rnd : Fin NUM_VOICES → Int)
    (acc : MintySynth F × F × F) (v : Fin NUM_VOICES) (h : acc.1.voiceActive v = false) :
    processVoice M rnd acc v = acc := by
  unfold processVoice
  simp only [h, Bool.not_false, if_true]

theorem processVoice_other (M : Libm F) (rnd : Fin NUM_VOICES → Int)
    (acc : MintySynth F × F × F) (v w : Fin NUM_VOICES) (hw : w ≠ v) :
    voiceState (processVoice M rnd acc v).1 w = voiceState acc.1 w := by
  unfold processVoice
  split_ifs
  · rfl
  · simp only [voiceState, Function.update_noteq hw]
    split_ifs
    · simp only [Function.update_noteq hw]
    · rfl

theorem processVoice_same (M : Libm F) (rnd : Fin NUM_VOICES → Int)
    (acc : MintySynth F × F × F) (v : Fin NUM_VOICES) :
    voiceState (processVoice M rnd acc v).1 v = voiceAfterFrame M acc.1 v := by
  unfold processVoice voiceAfterFrame
  by_cases ha : acc.1.voiceActive v = true
  · simp only [ha, Bool.not_true, Bool.false_eq_true, if_false, if_true, voiceState,
      advancedPhase, Function.update_same]
    split_ifs <;> simp only [Function.update_same, ha]
  · simp only [Bool.not_eq_true] at ha
    simp only [ha, Bool.not_false, if_true, Bool.false_eq_true, if_false]

theorem processVoice_mix (M : Libm F) (rnd : Fin NUM_VOICES → Int)
    (acc : MintySynth F × F × F) (v : Fin NUM_VOICES) :
    (processVoice M rnd acc v).2
      = (acc.2.1 + voiceContribution M rnd acc.1 v, acc.2.2 + voiceContribution M rnd acc.1 v) := by
  unfold processVoice voiceContribution
  by_cases ha : acc.1.voiceActive v = true
  · simp only [ha, Bool.not_true, Bool.false_eq_true, if_false, if_true]
  · simp only [Bool.not_eq_true] at ha
    simp only [ha, Bool.not_false, if_true, Bool.false_eq_true, if_false, add_zero]

theorem voiceAfterFrame_congr (M : Libm F) (s t : MintySynth F) (v : Fin NUM_VOICES)
    (h : voiceState t v = voiceState s v) : voiceAfterFrame M t v = voiceAfterFrame M s v := by
  unfold voiceAfterFrame
  rw [h]
  simp only [voiceState, Prod.mk.injEq] at h
  obtain ⟨h1, h2, h3, h4, h5⟩ := h
  rw [h1, h2, h3, h4, h5]

theorem voiceContribution_congr (M : Libm F) (rnd : Fin NUM_VOICES → Int) (s t : MintySynth F)
    (v : Fin NUM_VOICES) (h : voiceState t v = voiceState s v) :
    voiceContribution M rnd t v = voiceContribution M rnd s v := by
  unfold voiceContribution
  simp only [voiceState, Prod.mk.injEq] at h
  obtain ⟨h1, h2, h3, h4, h5⟩ := h
  rw [h1, h2, h4, h5]

/-- The voice loop of `processAudio` over a duplicate-free list of voices: the grid,
globals and transport are untouched, every listed voice ends as `voiceAfterFrame` says of
the state before the loop, and both mix accumulators grow by the listed voices'
contributions. -/
theorem foldl_processVoice (M : Libm F) (rnd : Fin NUM_VOICES → Int) :
    ∀ (l : List (Fin NUM_VOICES)) (acc : MintySynth F × F × F), l.Nodup →
      sharedState (l.foldl (processVoice M rnd) acc).1 = sharedState acc.1
        ∧ (∀ w, voiceState (l.foldl (processVoice M rnd) acc).1 w
            = if w ∈ l then voiceAfterFrame M acc.1 w else voiceState acc.1 w)
        ∧ (l.foldl (processVoice M rnd) acc).2.1
            = acc.2.1 + (l.map (voiceContribution M rnd acc.1)).sum
        ∧ (l.foldl (processVoice M rnd) acc).2.2
            = acc.2.2 + (l.map (voiceContribution M rnd acc.1)).sum := by
  intro l
  induction l with
  | nil =>
    intro acc _
    simp only [List.foldl, List.not_mem_nil, if_false, implies_true, List.map_nil,
      List.sum_nil, add_zero, and_self]
  | cons u l ih =>
    intro acc hnd
    obtain ⟨hu, hl⟩ := List.nodup_cons.mp hnd
    obtain ⟨ih1, ih2, ih3, ih4⟩ := ih (processVoice M rnd acc u) hl
    have hsh := processVoice_sharedState M rnd acc u
    have hmix := processVoice_mix M rnd acc u
    have hsum : (l.map (voiceContribution M rnd (processVoice M rnd acc u).1)).sum
        = (l.map (voiceContribution M rnd acc.1)).sum := by
      congr 1
      apply List.map_congr_left
      intro w hw
      have hwu : w ≠ u := fun h => hu (h ▸ hw)
      exact voiceContribution_congr M rnd acc.1 _ w (processVoice_other M rnd acc u w hwu)
    refine ⟨?_, ?_, ?_, ?_⟩
    · simp only [List.foldl]
      rw [ih1, hsh]
    · intro w
      simp only [List.foldl]
      rw [ih2 w]
      by_cases hwl : w ∈ l
      · have hwu : w ≠ u := fun h => hu (h ▸ hwl)
        rw [if_pos hwl, if_pos (List.mem_cons_of_mem u hwl)]
        exact voiceAfterFrame_congr M acc.1 _ w (processVoice_other M rnd acc u w hwu)
      · rw [if_neg hwl]
        by_cases hwu : w = u
        · subst hwu
          rw [if_pos (List.mem_cons_self _ _)]
          exact processVoice_same M rnd acc w
        · have hmem : ¬ w ∈ u :: l := by
            intro h
            rcases List.mem_cons.mp h with h | h
            · exact hwu h
            · exact hwl h
          rw [if_neg hmem]
          exact processVoice_other M rnd acc u w hwu
    · simp only [List.foldl, List.map_cons, List.sum_cons]
      rw [ih3, hsum, hmix]
      ring
    · simp only [List.foldl, List.map_cons, List.sum_cons]
      rw [ih4, hsum, hmix]
      ring

theorem allVoices_nodup : allVoices.Nodup := by decide

theorem mem_allVoices (v : Fin NUM_VOICES) : v ∈ allVoices := by
  fin_cases v <;> decide

/-- The state of voice `v` after one rendered frame. -/
theorem renderFrame_voiceState (M : Libm F) (rnd : Fin NUM_VOICES → Int) (s : MintySynth F)
    (v : Fin NUM_VOICES) : voiceState (renderFrame M rnd s).1 v = voiceAfterFrame M s v := by
  have h := (foldl_processVoice M rnd allVoices (s, 0, 0) allVoices_nodup).2.1 v
  rw [if_pos (mem_allVoices v)] at h
  exact h

/-- A rendered frame leaves the grid, the globals and the transport unchanged. -/
theorem renderFrame_sharedState (M : Libm F) (rnd : Fin NUM_VOICES → Int) (s : MintySynth F) :
    sharedState (renderFrame M rnd s).1 = sharedState s :=
  (foldl_processVoice M rnd allVoices (s, 0, 0) allVoices_nodup).1

/-- The two values a rendered frame stores: both are the conversion to an integer of
`constrain(mix * 16000, -32767, 32767)`, where `mix` is the sum of the four voices'
contributions times `masterVolume / 127`. -/
theorem renderFrame_output (M : Libm F) (rnd : Fin NUM_VOICES → Int) (s : MintySynth F) :
    (renderFrame M rnd s).2
      = (M.toInt (constrain
          ((voiceContribution M rnd s 0 + voiceContribution M rnd s 1
              + voiceContribution M rnd s 2 + voiceContribution M rnd s 3)
            * ((s.globals.masterVolume : F) / 127) * 16000) (-32767) 32767),
         M.toInt (constrain
          ((voiceContribution M rnd s 0 + voiceContribution M rnd s 1
              + voiceContribution M rnd s 2 + voiceContribution M rnd s 3)
            * ((s.globals.masterVolume : F) / 127) * 16000) (-32767) 32767)) := by
  obtain ⟨h1, _, h3, h4⟩ := foldl_processVoice M rnd allVoices (s, 0, 0) allVoices_nodup
  have hg : (allVoices.foldl (processVoice M rnd) (s, 0, 0)).1.globals = s.globals := by
    simp only [sharedState, Prod.mk.injEq] at h1
    exact h1.2.1
  have hsum : (allVoices.map (voiceContribution M rnd s)).sum
      = voiceContribution M rnd s 0 + voiceContribution M rnd s 1
          + voiceContribution M rnd s 2 + voiceContribution M rnd s 3 := by
    simp only [allVoices, List.map_cons, List.map_nil, List.sum_cons, List.sum_nil]
    ring
  simp only [zero_add] at h3 h4
  simp only [renderFrame, h3, h4, hg, hsum]

/-! ## The render loop, frame by frame -/

/-- The loop of `processAudio`, entered at the even index `2 * m` in the state at the start
of frame `m`: it runs the frames `m, m + 1, ...` up to `(length + 1) / 2`, exclusive, and
stores the output of frame `k` at the indices `2 * k` and `2 * k + 1`. -/
theorem processAudioLoop_frames (M : Libm F) (random : Nat → Fin NUM_VOICES → Int)
    (length : Nat) (s0 : MintySynth F) :
    ∀ (n m : Nat) (buf : Nat → Int), (length + 1) / 2 - m ≤ n →
      processAudioLoop M random length (2 * m) (stateAtFrame M random s0 m) buf
        = (stateAtFrame M random s0 (max m ((length + 1) / 2)),
            fun j => if 2 * m ≤ j ∧ j < 2 * ((length + 1) / 2) then
                (if j % 2 = 0 then (frameOutput M random s0 (j / 2)).1
                  else (frameOutput M random s0 (j / 2)).2)
              else buf j) := by
  have hdone : ∀ (m : Nat) (buf : Nat → Int), ¬ 2 * m < length →
      processAudioLoop M random length (2 * m) (stateAtFrame M random s0 m) buf
        = (stateAtFrame M random s0 (max m ((length + 1) / 2)),
            fun j => if 2 * m ≤ j ∧ j < 2 * ((length + 1) / 2) then
                (if j % 2 = 0 then (frameOutput M random s0 (j / 2)).1
                  else (frameOutput M random s0 (j / 2)).2)
              else buf j) := by
    intro m buf h
    rw [processAudioLoop, dif_neg h]
    have hmax : max m ((length + 1) / 2) = m := by omega
    rw [hmax]
    refine Prod.ext rfl ?_
    funext j
    have hc : ¬ (2 * m ≤ j ∧ j < 2 * ((length + 1) / 2)) := by omega
    simp only [if_neg hc]
  intro n
  induction n with
  | zero =>
    intro m buf hn
    exact hdone m buf (by omega)
  | succ n ih =>
    intro m buf hn
    by_cases h : 2 * m < length
    · have e := ih (m + 1)
        (Function.update (Function.update buf (2 * m) (frameOutput M random s0 m).1)
          (2 * m + 1) (frameOutput M random s0 m).2) (by omega)
      have hmax : max (m + 1) ((length + 1) / 2) = max m ((length + 1) / 2) := by omega
      rw [hmax] at e
      rw [processAudioLoop, dif_pos h]
      refine Eq.trans e ?_
      refine Prod.ext rfl ?_
      funext j
      by_cases hj0 : j = 2 * m
      · subst hj0
        have hc1 : ¬ (2 * (m + 1) ≤ 2 * m ∧ 2 * m < 2 * ((length + 1) / 2)) := by omega
        have hc2 : 2 * m ≤ 2 * m ∧ 2 * m < 2 * ((length + 1) / 2) := by omega
        have hmod : 2 * m % 2 = 0 := by omega
        have hdiv : 2 * m / 2 = m := by omega
        have hne : 2 * m ≠ 2 * m + 1 := by omega
        simp only [if_neg hc1, if_pos hc2, hmod, if_true, hdiv, Function.update_noteq hne,
          Function.update_same]
      · by_cases hj1 : j = 2 * m + 1
        · subst hj1
          have hc1 : ¬ (2 * (m + 1) ≤ 2 * m + 1 ∧ 2 * m + 1 < 2 * ((length + 1) / 2)) := by
            omega
          have hc2 : 2 * m ≤ 2 * m + 1 ∧ 2 * m + 1 < 2 * ((length + 1) / 2) := by omega
          have hmod : ¬ ((2 * m + 1) % 2 = 0) := by omega
          have hdiv : (2 * m + 1) / 2 = m := by omega
          simp only [if_neg hc1, if_pos hc2, if_neg hmod, hdiv, Function.update_same]
        · simp only [Function.update_noteq hj1, Function.update_noteq hj0]
          by_cases hc : 2 * (m + 1) ≤ j ∧ j < 2 * ((length + 1) / 2)
          · have hc2 : 2 * m ≤ j ∧ j < 2 * ((length + 1) / 2) := by omega
            simp only [if_pos hc, if_pos hc2]
          · have hc2 : ¬ (2 * m ≤ j ∧ j < 2 * ((length + 1) / 2)) := by omega
            simp only [if_neg hc, if_neg hc2]
    · exact hdone m buf h

/-- `processAudio(buffer, length)`, frame by frame: the call renders `(length + 1) / 2`
frames; the buffer entries `2 * k` and `2 * k + 1` receive the left and right output of
frame `k`, and the entries from `2 * ((length + 1) / 2)` on keep their contents. -/
theorem processAudio_frames (M : Libm F) (random : Nat → Fin NUM_VOICES → Int)
    (s : MintySynth F) (buffer : Nat → Int) (length : Nat) :
    processAudio M random s buffer length
      = (stateAtFrame M random s ((length + 1) / 2),
          fun j => if j < 2 * ((length + 1) / 2) then
              (if j % 2 = 0 then (frameOutput M random s (j / 2)).1
                else (frameOutput M random s (j / 2)).2)
            else buffer j) := by
  have h := processAudioLoop_frames M random length s ((length + 1) / 2) 0 buffer (by omega)
  simp only [Nat.mul_zero, Nat.zero_le, true_and, Nat.zero_max] at h
  exact h

/-! ## Silence after `stop()` -/

/-- With every voice inactive, a rendered frame leaves the state as it is and stores 0 in
both channels. -/
theorem renderFrame_all_inactive (rnd : Fin NUM_VOICES → Int) (s : MintySynth ℝ)
    (h : ∀ v, s.voiceActive v = false) : renderFrame realLibm rnd s = (s, 0, 0) := by
  have hfold : allVoices.foldl (processVoice realLibm rnd) (s, 0, 0) = (s, 0, 0) := by
    simp only [allVoices, List.foldl]
    rw [processVoice_inactive realLibm rnd (s, 0, 0) 0 (h 0),
      processVoice_inactive realLibm rnd (s, 0, 0) 1 (h 1),
      processVoice_inactive realLibm rnd (s, 0, 0) 2 (h 2),
      processVoice_inactive realLibm rnd (s, 0, 0) 3 (h 3)]
  have hc : constrain ((0 : ℝ) * ((s.globals.masterVolume : ℝ) / 127) * 16000) (-32767) 32767
      = 0 := by
    unfold constrain
    norm_num
  simp only [renderFrame, hfold, hc]
  simp [realLibm]

theorem stateAtFrame_all_inactive (random : Nat → Fin NUM_VOICES → Int) (s : MintySynth ℝ)
    (h : ∀ v, s.voiceActive v = false) : ∀ k, stateAtFrame realLibm random s k = s := by
  intro k
  induction k with
  | zero => rfl
  | succ k ih =>
    simp only [stateAtFrame, ih, renderFrame_all_inactive _ s h]

theorem frameOutput_all_inactive (random : Nat → Fin NUM_VOICES → Int) (s : MintySynth ℝ)
    (h : ∀ v, s.voiceActive v = false) (k : Nat) : frameOutput realLibm random s k = (0, 0) := by
  simp only [frameOutput, stateAtFrame_all_inactive random s h k,
    renderFrame_all_inactive _ s h]

/-- C11: immediately after `stop()` the engine is not playing and every voice is inactive;
the next `processAudio` call, for an even buffer length, writes 0 to each of the entries
`0 .. length - 1` it fills (leaving the rest of the buffer alone) and leaves the state, in
particular every voice's inactive flag, as `stop()` left it; `stop()` itself changes no
voice parameter, no grid cell and no global parameter. -/
theorem stop_silences (s : MintySynth ℝ) (random : Nat → Fin NUM_VOICES → Int)
    (buffer : Nat → Int) (length : Nat) (heven : length % 2 = 0) :
    (stop s).playing = false
      ∧ (∀ v, (stop s).voiceActive v = false)
      ∧ (∀ j, j < length → (processAudio realLibm random (stop s) buffer length).2 j = 0)
      ∧ (∀ j, length ≤ j → (processAudio realLibm random (stop s) buffer length).2 j = buffer j)
      ∧ (∀ v, (processAudio realLibm random (stop s) buffer length).1.voiceActive v = false)
      ∧ (processAudio realLibm random (stop s) buffer length).1 = stop s
      ∧ (stop s).voices = s.voices ∧ (stop s).sequence = s.sequence
      ∧ (stop s).globals = s.globals := by
  have hin : ∀ v, (stop s).voiceActive v = false := fun _ => rfl
  have hfr := processAudio_frames realLibm random (stop s) buffer length
  have hlen : 2 * ((length + 1) / 2) = length := by omega
  rw [hlen, stateAtFrame_all_inactive random (stop s) hin] at hfr
  refine ⟨rfl, hin, ?_, ?_, ?_, ?_, rfl, rfl, rfl⟩
  · intro j hj
    rw [hfr]
    simp only [if_pos hj, frameOutput_all_inactive random (stop s) hin, ite_self]
  · intro j hj
    rw [hfr]
    have hj' : ¬ j < length := by omega
    simp only [if_neg hj']
  · intro v
    rw [hfr]
    exact hin v
  · rw [hfr]

/-- Witness for C11: a fresh engine with voice 0 triggered, stopped, then a call with
buffer length 4 on a buffer holding 7 everywhere. -/
theorem stop_silences_witness :
    4 % 2 = 0
    ∧ ((stop (triggerVoice realLibm (new : MintySynth ℝ) 0 69 127)).playing = false
      ∧ (∀ v, (stop (triggerVoice realLibm (new : MintySynth ℝ) 0 69 127)).voiceActive v = false)
      ∧ (∀ j, j < 4 → (processAudio realLibm (fun _ _ => 0)
            (stop (triggerVoice realLibm (new : MintySynth ℝ) 0 69 127)) (fun _ => 7) 4).2 j = 0)
      ∧ (∀ j, 4 ≤ j → (processAudio realLibm (fun _ _ => 0)
            (stop (triggerVoice realLibm (new : MintySynth ℝ) 0 69 127)) (fun _ => 7) 4).2 j
              = (fun _ => 7) j)
      ∧ (∀ v, (processAudio realLibm (fun _ _ => 0)
            (stop (triggerVoice realLibm (new : MintySynth ℝ) 0 69 127))
              (fun _ => 7) 4).1.voiceActive v = false)
      ∧ (processAudio realLibm (fun _ _ => 0)
            (stop (triggerVoice realLibm (new : MintySynth ℝ) 0 69 127)) (fun _ => 7) 4).1
          = stop (triggerVoice realLibm (new : MintySynth ℝ) 0 69 127)
      ∧ (stop (triggerVoice realLibm (new : MintySynth ℝ) 0 69 127)).voices
          = (triggerVoice realLibm (new : MintySynth ℝ) 0 69 127).voices
      ∧ (stop (triggerVoice realLibm (new : MintySynth ℝ) 0 69 127)).sequence
          = (triggerVoice realLibm (new : MintySynth ℝ) 0 69 127).sequence
      ∧ (stop (triggerVoice realLibm (new : MintySynth ℝ) 0 69 127)).globals
          = (triggerVoice realLibm (new : MintySynth ℝ) 0 69 127).globals) :=
  ⟨by decide,
    stop_silences (triggerVoice realLibm (new : MintySynth ℝ) 0 69 127) (fun _ _ => 0)
      (fun _ => 7) 4 (by decide)⟩

/-! ## The envelope clock across frames -/

theorem renderFrame_voices (M : Libm F) (rnd : Fin NUM_VOICES → Int) (s : MintySynth F) :
    (renderFrame M rnd s).1.voices = s.voices := by
  refine renderFrame_invariant M rnd (fun t => t.voices = s.voices) ?_ s rfl
  intro acc v h
  rw [processVoice_voices]
  exact h

theorem stateAtFrame_voices (M : Libm F) (random : Nat → Fin NUM_VOICES → Int)
    (s : MintySynth F) : ∀ k, (stateAtFrame M random s k).voices = s.voices := by
  intro k
  induction k with
  | zero => rfl
  | succ k ih => simp only [stateAtFrame, renderFrame_voices, ih]

/-- One frame, seen from an active voice: the 16-bit envelope clock is incremented and the
voice stays active exactly if the new clock value does not exceed the expiry threshold. -/
theorem renderFrame_active (M : Libm F) (rnd : Fin NUM_VOICES → Int) (s : MintySynth F)
    (v : Fin NUM_VOICES) (h : s.voiceActive v = true) :
    (renderFrame M rnd s).1.voiceEnvPhase v = (s.voiceEnvPhase v + 1) % 65536
      ∧ (renderFrame M rnd s).1.voicePhase v = advancedPhase M (s.voicePhase v) (s.voiceFreq v)
      ∧ ((renderFrame M rnd s).1.voiceActive v = true ↔
          (s.voiceEnvPhase v + 1) % 65536 ≤ ((s.voices v).length * SAMPLE_RATE / 1000) % 65536) := by
  have hvs := renderFrame_voiceState M rnd s v
  simp only [voiceAfterFrame, h, if_true, voiceState, Prod.mk.injEq] at hvs
  obtain ⟨_, h2, _, h4, h5⟩ := hvs
  refine ⟨h4, h2, ?_⟩
  rw [h5]
  split_ifs with hc
  · constructor
    · intro hf
      exact absurd hf (by decide)
    · intro hle
      omega
  · constructor
    · intro _
      omega
    · intro _
      rfl

/-- One frame, seen from an inactive voice: nothing of the voice changes. -/
theorem renderFrame_inactive (M : Libm F) (rnd : Fin NUM_VOICES → Int) (s : MintySynth F)
    (v : Fin NUM_VOICES) (h : s.voiceActive v = false) :
    voiceState (renderFrame M rnd s).1 v = voiceState s v := by
  have hvs := renderFrame_voiceState M rnd s v
  simp only [voiceAfterFrame, h, Bool.false_eq_true, if_false] at hvs
  exact hvs

/-- The envelope clock and the active flag of a voice that starts active with clock 0 and
expiry threshold `T = length * SAMPLE_RATE / 1000 < 65535`: up to frame `T` the voice is
active with the clock at the frame count; from frame `T + 1` on it is inactive with the
clock stopped at `T + 1`. -/
theorem envelope_run (M : Libm F) (random : Nat → Fin NUM_VOICES → Int) (s : MintySynth F)
    (v : Fin NUM_VOICES) (ha : s.voiceActive v = true) (he : s.voiceEnvPhase v = 0)
    (hT : (s.voices v).length * SAMPLE_RATE / 1000 < 65535) :
    ∀ k, (k ≤ (s.voices v).length * SAMPLE_RATE / 1000 →
            (stateAtFrame M random s k).voiceActive v = true
              ∧ (stateAtFrame M random s k).voiceEnvPhase v = k)
      ∧ ((s.voices v).length * SAMPLE_RATE / 1000 < k →
            (stateAtFrame M random s k).voiceActive v = false
              ∧ (stateAtFrame M random s k).voiceEnvPhase v
                  = (s.voices v).length * SAMPLE_RATE / 1000 + 1) := by
  intro k
  induction k with
  | zero =>
    refine ⟨fun _ => ⟨ha, he⟩, fun h => ?_⟩
    omega
  | succ k ih =>
    obtain ⟨ih1, ih2⟩ := ih
    have hvo : ((stateAtFrame M random s k).voices v).length = (s.voices v).length := by
      rw [stateAtFrame_voices]
    by_cases hk : k ≤ (s.voices v).length * SAMPLE_RATE / 1000
    · obtain ⟨hact, henv⟩ := ih1 hk
      obtain ⟨r1, _, r3⟩ := renderFrame_active M (random (2 * k)) (stateAtFrame M random s k) v hact
      rw [henv] at r1
      rw [henv, hvo] at r3
      have hmod1 : (k + 1) % 65536 = k + 1 := by omega
      have hmod2 : ((s.voices v).length * SAMPLE_RATE / 1000) % 65536
          = (s.voices v).length * SAMPLE_RATE / 1000 := by omega
      rw [hmod1] at r1
      rw [hmod1, hmod2] at r3
      refine ⟨fun hle => ⟨?_, ?_⟩, fun hlt => ⟨?_, ?_⟩⟩
      · simp only [stateAtFrame]
        exact r3.mpr hle
      · simp only [stateAtFrame]
        exact r1
      · simp only [stateAtFrame]
        have hn : ¬ ((renderFrame M (random (2 * k)) (stateAtFrame M random s k)).1.voiceActive v
            = true) := fun hh => absurd (r3.mp hh) (by omega)
        simpa using hn
      · simp only [stateAtFrame]
        rw [r1]
        omega
    · obtain ⟨hact, henv⟩ := ih2 (by omega)
      have hin := renderFrame_inactive M (random (2 * k)) (stateAtFrame M random s k) v hact
      simp only [voiceState, Prod.mk.injEq] at hin
      obtain ⟨_, _, _, h4, h5⟩ := hin
      refine ⟨fun hle => ?_, fun _ => ⟨?_, ?_⟩⟩
      · omega
      · simp only [stateAtFrame]
        rw [h5, hact]
      · simp only [stateAtFrame]
        rw [h4, henv]

/-- A voice that is active after `k` frames was active before them, and its 16-bit envelope
clock has advanced by exactly `k`. -/
theorem active_after_frames (M : Libm F) (random : Nat → Fin NUM_VOICES → Int) (s : MintySynth F)
    (v : Fin NUM_VOICES) (h16 : s.voiceEnvPhase v < 65536) :
    ∀ k, (stateAtFrame M random s k).voiceActive v = true →
      s.voiceActive v = true
        ∧ (stateAtFrame M random s k).voiceEnvPhase v = (s.voiceEnvPhase v + k) % 65536 := by
  intro k
  induction k with
  | zero =>
    intro h
    refine ⟨h, ?_⟩
    show s.voiceEnvPhase v = (s.voiceEnvPhase v + 0) % 65536
    omega
  | succ k ih =>
    intro h
    have hk : (stateAtFrame M random s k).voiceActive v = true := by
      by_contra hn
      simp only [Bool.not_eq_true] at hn
      have hin := renderFrame_inactive M (random (2 * k)) (stateAtFrame M random s k) v hn
      simp only [voiceState, Prod.mk.injEq] at hin
      have h5 := hin.2.2.2.2
      simp only [stateAtFrame] at h
      rw [h5, hn] at h
      exact absurd h (by decide)
    obtain ⟨i1, i2⟩ := ih hk
    have r1 := (renderFrame_active M (random (2 * k)) (stateAtFrame M random s k) v hk).1
    refine ⟨i1, ?_⟩
    simp only [stateAtFrame]
    rw [r1, i2]
    omega

theorem a4Triggered_voice0 (M : Libm F) :
    (a4Triggered M).voiceActive 0 = true ∧ (a4Triggered M).voiceEnvPhase 0 = 0
      ∧ ((a4Triggered M).voices 0).length = 50 := by
  have h := triggerVoice_same M (new : MintySynth F) 0 69 127 (by decide)
  simp only [voiceState, Prod.mk.injEq] at h
  obtain ⟨h1, _, _, h4, h5⟩ := h
  refine ⟨h5, h4, ?_⟩
  show ((triggerVoice M (new : MintySynth F) 0 69 127).voices ⟨0, by decide⟩).length = 50
  rw [h1]
  rfl

/-- On the engine with A4 triggered on voice 0, after `k ≤ 2205` frames voice 0 is active
with its envelope clock at `k`. -/
theorem a4Triggered_frames (M : Libm F) (random : Nat → Fin NUM_VOICES → Int) (k : Nat)
    (hk : k ≤ 2205) :
    (stateAtFrame M random (a4Triggered M) k).voiceActive 0 = true
      ∧ (stateAtFrame M random (a4Triggered M) k).voiceEnvPhase 0 = k := by
  obtain ⟨ha, he, hl⟩ := a4Triggered_voice0 M
  have hT : ((a4Triggered M).voices 0).length * SAMPLE_RATE / 1000 = 2205 := by
    rw [hl]
    decide
  exact (envelope_run M random (a4Triggered M) 0 ha he (by rw [hT]; decide) k).1
    (by rw [hT]; exact hk)

/-! ## What `processAudio` renders -/

/-- Counterexample to C12 as stated: with A4 triggered on voice 0 of a fresh engine,
`processAudio(buffer, 4)` leaves voice 0 active with its envelope clock at 2, not 4, and
every buffer entry from index 4 on keeps the value it had, whatever the buffer held. -/
theorem processAudio_four_renders_two :
    (a4Triggered realLibm).voiceEnvPhase 0 = 0
      ∧ ∀ buffer : Nat → Int,
        (processAudio realLibm (fun _ _ => 0) (a4Triggered realLibm) buffer 4).1.voiceActive 0
            = true
          ∧ (processAudio realLibm (fun _ _ => 0) (a4Triggered realLibm) buffer
              4).1.voiceEnvPhase 0 = 2
          ∧ (processAudio realLibm (fun _ _ => 0) (a4Triggered realLibm) buffer
              4).1.voiceEnvPhase 0 ≠ (a4Triggered realLibm).voiceEnvPhase 0 + 4
          ∧ ∀ j, 4 ≤ j →
              (processAudio realLibm (fun _ _ => 0) (a4Triggered realLibm) buffer 4).2 j
                = buffer j := by
  have he := (a4Triggered_voice0 realLibm).2.1
  refine ⟨he, ?_⟩
  intro buffer
  have hfr := processAudio_frames realLibm (fun _ _ => 0) (a4Triggered realLibm) buffer 4
  have hN : (4 + 1) / 2 = 2 := by decide
  rw [hN] at hfr
  obtain ⟨f1, f2⟩ := a4Triggered_frames realLibm (fun _ _ => 0) 2 (by decide)
  rw [hfr]
  refine ⟨f1, f2, ?_, ?_⟩
  · show (stateAtFrame realLibm (fun _ _ => 0) (a4Triggered realLibm) 2).voiceEnvPhase 0
      ≠ (a4Triggered realLibm).voiceEnvPhase 0 + 4
    rw [f2, he]
    decide
  · intro j hj
    have hc : ¬ j < 2 * 2 := by omega
    simp only [if_neg hc]

/-- C12, amended: the second argument of `processAudio` is the buffer length in entries.
For every engine state, whether or not any voice sounds, the call renders
`(length + 1) / 2` frames, stores the left and right output of frame `k` at the indices
`2 * k` and `2 * k + 1` (for an even length these are exactly the entries
`0 .. length - 1`) and leaves every later entry as it was; and a voice that is still active
after the call was active before it and, its envelope clock being a 16-bit value, has had
that clock advanced by exactly `(length + 1) / 2`. -/
theorem processAudio_renders_half_length (M : Libm F) (random : Nat → Fin NUM_VOICES → Int)
    (s : MintySynth F) (buffer : Nat → Int) (length : Nat) (v : Fin NUM_VOICES) :
    (processAudio M random s buffer length).1 = stateAtFrame M random s ((length + 1) / 2)
      ∧ (∀ k, k < (length + 1) / 2 →
          (processAudio M random s buffer length).2 (2 * k) = (frameOutput M random s k).1
            ∧ (processAudio M random s buffer length).2 (2 * k + 1)
                = (frameOutput M random s k).2)
      ∧ (∀ j, 2 * ((length + 1) / 2) ≤ j →
          (processAudio M random s buffer length).2 j = buffer j)
      ∧ (length % 2 = 0 → 2 * ((length + 1) / 2) = length)
      ∧ (s.voiceEnvPhase v < 65536 →
          (processAudio M random s buffer length).1.voiceActive v = true →
          s.voiceActive v = true
            ∧ (processAudio M random s buffer length).1.voiceEnvPhase v
                = (s.voiceEnvPhase v + (length + 1) / 2) % 65536) := by
  have hfr := processAudio_frames M random s buffer length
  rw [hfr]
  refine ⟨rfl, ?_, ?_, ?_, ?_⟩
  · intro k hk
    have hc1 : 2 * k < 2 * ((length + 1) / 2) := by omega
    have hc2 : 2 * k + 1 < 2 * ((length + 1) / 2) := by omega
    have hm1 : 2 * k % 2 = 0 := by omega
    have hm2 : ¬ ((2 * k + 1) % 2 = 0) := by omega
    have hd1 : 2 * k / 2 = k := by omega
    have hd2 : (2 * k + 1) / 2 = k := by omega
    simp only [if_pos hc1, if_pos hc2, hm1, if_true, if_neg hm2, hd1, hd2, and_self]
  · intro j hj
    have hc : ¬ j < 2 * ((length + 1) / 2) := by omega
    simp only [if_neg hc]
  · intro he
    omega
  · intro h16 hact
    exact active_after_frames M random s v h16 ((length + 1) / 2) hact

/-- Witness for the amended C12: A4 triggered on voice 0 of a fresh engine, buffer length 4,
a buffer holding 7 everywhere. -/
theorem processAudio_renders_half_length_witness :
    ((a4Triggered realLibm).voiceEnvPhase 0 < 65536
      ∧ (processAudio realLibm (fun _ _ => 0) (a4Triggered realLibm) (fun _ => 7)
          4).1.voiceActive 0 = true)
    ∧ ((processAudio realLibm (fun _ _ => 0) (a4Triggered realLibm) (fun _ => 7) 4).1
          = stateAtFrame realLibm (fun _ _ => 0) (a4Triggered realLibm) ((4 + 1) / 2)
      ∧ (∀ k, k < (4 + 1) / 2 →
          (processAudio realLibm (fun _ _ => 0) (a4Triggered realLibm) (fun _ => 7) 4).2 (2 * k)
              = (frameOutput realLibm (fun _ _ => 0) (a4Triggered realLibm) k).1
            ∧ (processAudio realLibm (fun _ _ => 0) (a4Triggered realLibm) (fun _ => 7) 4).2
                (2 * k + 1) = (frameOutput realLibm (fun _ _ => 0) (a4Triggered realLibm) k).2)
      ∧ (∀ j, 2 * ((4 + 1) / 2) ≤ j →
          (processAudio realLibm (fun _ _ => 0) (a4Triggered realLibm) (fun _ => 7) 4).2 j
            = (fun _ => 7) j)
      ∧ (4 % 2 = 0 → 2 * ((4 + 1) / 2) = 4)
      ∧ (a4Triggered realLibm).voiceActive 0 = true
      ∧ (processAudio realLibm (fun _ _ => 0) (a4Triggered realLibm) (fun _ => 7)
          4).1.voiceEnvPhase 0 = ((a4Triggered realLibm).voiceEnvPhase 0 + (4 + 1) / 2) % 65536) :=
  have h16 : (a4Triggered realLibm).voiceEnvPhase 0 < 65536 := by
    rw [(a4Triggered_voice0 realLibm).2.1]
    decide
  have hact : (processAudio realLibm (fun _ _ => 0) (a4Triggered realLibm) (fun _ => 7)
      4).1.voiceActive 0 = true := by
    rw [processAudio_frames]
    exact (a4Triggered_frames realLibm (fun _ _ => 0) 2 (by decide)).1
  have h := processAudio_renders_half_length realLibm (fun _ _ => 0) (a4Triggered realLibm)
    (fun _ => 7) 4 0
  ⟨⟨h16, hact⟩, h.1, h.2.1, h.2.2.1, h.2.2.2.1, (h.2.2.2.2 h16 hact).1,
    (h.2.2.2.2 h16 hact).2⟩

/-! ## Envelope expiry -/

/-- C14: for a voice `v < 4` whose length parameter `L` is at most 127, after
`triggerVoice` followed by `k` rendered frames and nothing else, the voice is active if and
only if `k ≤ L * 44100 / 1000` (integer division), whether the frames are counted one by
one or rendered by one `processAudio` call of buffer length `2 * k`; up to frame
`L * 44100 / 1000 + 1` its envelope clock equals the frame count, so the renderer
deactivates it on the frame where the clock first exceeds the threshold; and the threshold
is at most 5600. -/
theorem envelope_expiry (M : Libm F) (s : MintySynth F) (v n vel : Nat) (hv : v < NUM_VOICES)
    (hL : (s.voices ⟨v, hv⟩).length ≤ 127) (random : Nat → Fin NUM_VOICES → Int)
    (buffer : Nat → Int) (k : Nat) :
    ((stateAtFrame M random (triggerVoice M s v n vel) k).voiceActive ⟨v, hv⟩ = true
        ↔ k ≤ (s.voices ⟨v, hv⟩).length * 44100 / 1000)
      ∧ ((processAudio M random (triggerVoice M s v n vel) buffer (2 * k)).1.voiceActive ⟨v, hv⟩
            = true ↔ k ≤ (s.voices ⟨v, hv⟩).length * 44100 / 1000)
      ∧ (k ≤ (s.voices ⟨v, hv⟩).length * 44100 / 1000 + 1 →
          (stateAtFrame M random (triggerVoice M s v n vel) k).voiceEnvPhase ⟨v, hv⟩ = k)
      ∧ (s.voices ⟨v, hv⟩).length * 44100 / 1000 ≤ 5600 := by
  have hsame := triggerVoice_same M s v n vel hv
  simp only [voiceState, Prod.mk.injEq] at hsame
  obtain ⟨h1, _, _, h4, h5⟩ := hsame
  have hlen : ((triggerVoice M s v n vel).voices ⟨v, hv⟩).length = (s.voices ⟨v, hv⟩).length := by
    rw [h1]
  have hT : (s.voices ⟨v, hv⟩).length * 44100 / 1000 ≤ 5600 := by omega
  have hrun := envelope_run M random (triggerVoice M s v n vel) ⟨v, hv⟩ h5 h4
    (by rw [hlen]; show (s.voices ⟨v, hv⟩).length * 44100 / 1000 < 65535; omega) k
  rw [hlen] at hrun
  obtain ⟨r1, r2⟩ := hrun
  have hiff : (stateAtFrame M random (triggerVoice M s v n vel) k).voiceActive ⟨v, hv⟩ = true
      ↔ k ≤ (s.voices ⟨v, hv⟩).length * 44100 / 1000 := by
    constructor
    · intro hact
      by_contra hn
      have := (r2 (by show (s.voices ⟨v, hv⟩).length * 44100 / 1000 < k; omega)).1
      rw [this] at hact
      exact absurd hact (by decide)
    · intro hle
      exact (r1 hle).1
  refine ⟨hiff, ?_, ?_, hT⟩
  · rw [processAudio_frames]
    have hN : (2 * k + 1) / 2 = k := by omega
    show (stateAtFrame M random (triggerVoice M s v n vel) ((2 * k + 1) / 2)).voiceActive ⟨v, hv⟩
        = true ↔ _
    rw [hN]
    exact hiff
  · intro hle
    by_cases hk : k ≤ (s.voices ⟨v, hv⟩).length * 44100 / 1000
    · exact (r1 hk).2
    · have := (r2 (by show (s.voices ⟨v, hv⟩).length * 44100 / 1000 < k; omega)).2
      rw [this]
      show (s.voices ⟨v, hv⟩).length * 44100 / 1000 + 1 = k
      omega

/-- Witness for C14: voice 0 of a fresh engine (length parameter 50, threshold 2205),
triggered with A4 and rendered for 2206 frames. -/
theorem envelope_expiry_witness :
    (0 < NUM_VOICES ∧ ((new : MintySynth ℝ).voices ⟨0, by decide⟩).length ≤ 127)
    ∧ (((stateAtFrame realLibm (fun _ _ => 0) (triggerVoice realLibm (new : MintySynth ℝ) 0 69 127)
            2206).voiceActive ⟨0, by decide⟩ = true
          ↔ 2206 ≤ ((new : MintySynth ℝ).voices ⟨0, by decide⟩).length * 44100 / 1000)
      ∧ ((processAudio realLibm (fun _ _ => 0) (triggerVoice realLibm (new : MintySynth ℝ) 0 69 127)
            (fun _ => 0) (2 * 2206)).1.voiceActive ⟨0, by decide⟩ = true
          ↔ 2206 ≤ ((new : MintySynth ℝ).voices ⟨0, by decide⟩).length * 44100 / 1000)
      ∧ (2206 ≤ ((new : MintySynth ℝ).voices ⟨0, by decide⟩).length * 44100 / 1000 + 1 →
          (stateAtFrame realLibm (fun _ _ => 0) (triggerVoice realLibm (new : MintySynth ℝ) 0 69 127)
            2206).voiceEnvPhase ⟨0, by decide⟩ = 2206)
      ∧ ((new : MintySynth ℝ).voices ⟨0, by decide⟩).length * 44100 / 1000 ≤ 5600) :=
  ⟨⟨by decide, by decide⟩,
    envelope_expiry realLibm (new : MintySynth ℝ) 0 69 127 (by decide) (by decide)
      (fun _ _ => 0) (fun _ => 0) 2206⟩

/-! ## The mix and its clipping -/

theorem constrain_mem (x lo hi : ℝ) (h : lo ≤ hi) :
    lo ≤ constrain x lo hi ∧ constrain x lo hi ≤ hi := by
  unfold constrain
  split_ifs with h1 h2
  · exact ⟨le_refl _, h⟩
  · exact ⟨h, le_refl _⟩
  · exact ⟨not_lt.mp h1, not_lt.mp h2⟩

/-- The conversion to an integer of a value clipped to `[-32767, 32767]` lies in
`[-32767, 32767]`. -/
theorem toInt_clipped_range (x : ℝ) :
    -32767 ≤ realLibm.toInt (constrain x (-32767) 32767)
      ∧ realLibm.toInt (constrain x (-32767) 32767) ≤ 32767 := by
  obtain ⟨h1, h2⟩ := constrain_mem x (-32767) 32767 (by norm_num)
  simp only [realLibm]
  split_ifs with h0
  · constructor
    · have : (0 : Int) ≤ ⌊constrain x (-32767) 32767⌋ := Int.floor_nonneg.mpr h0
      omega
    · have hf : (⌊constrain x (-32767) 32767⌋ : ℝ) ≤ 32767 :=
        le_trans (Int.floor_le _) h2
      exact_mod_cast hf
  · constructor
    · have hc : (-32767 : ℝ) ≤ (⌈constrain x (-32767) 32767⌉ : ℝ) :=
        le_trans h1 (Int.le_ceil _)
      exact_mod_cast hc
    · have : ⌈constrain x (-32767) 32767⌉ ≤ 0 := Int.ceil_le.mpr (by
        push_cast
        exact (not_le.mp h0).le)
      omega

/-- C13: for every engine state the two values a rendered frame stores are equal, lie in
`[-32767, 32767]`, and are the integer conversion of the mix clipped to that range, the mix
being `16000 * (masterVolume / 127)` times the sum over the active voices of waveform sample
times envelope gain times `volume / 127`, over the reals; and these are the values that
`processAudio` writes at the entries `2 * k` and `2 * k + 1` for each frame `k` it renders,
so the two entries of a frame are equal and within `[-32767, 32767]`. -/
theorem frame_output_clipped (s : MintySynth ℝ) (rnd : Fin NUM_VOICES → Int)
    (random : Nat → Fin NUM_VOICES → Int) (buffer : Nat → Int) (length k : Nat)
    (hk : k < (length + 1) / 2) :
    (renderFrame realLibm rnd s).2.1 = (renderFrame realLibm rnd s).2.2
      ∧ -32767 ≤ (renderFrame realLibm rnd s).2.1 ∧ (renderFrame realLibm rnd s).2.1 ≤ 32767
      ∧ (renderFrame realLibm rnd s).2.1
          = realLibm.toInt (constrain
              (16000 * ((s.globals.masterVolume : ℝ) / 127)
                * Finset.univ.sum (fun v : Fin NUM_VOICES =>
                    if s.voiceActive v = true then
                      getWaveformSample realLibm (rnd v) (s.voices v).waveform (s.voicePhase v)
                        * getEnvelopeSample realLibm (s.voices v).envelope (s.voiceEnvPhase v)
                        * (((s.voices v).volume : ℝ) / 127)
                    else 0))
              (-32767) 32767)
      ∧ (processAudio realLibm random s buffer length).2 (2 * k)
          = (renderFrame realLibm (random (2 * k)) (stateAtFrame realLibm random s k)).2.1
      ∧ (processAudio realLibm random s buffer length).2 (2 * k + 1)
          = (renderFrame realLibm (random (2 * k)) (stateAtFrame realLibm random s k)).2.2
      ∧ (processAudio realLibm random s buffer length).2 (2 * k)
          = (processAudio realLibm random s buffer length).2 (2 * k + 1)
      ∧ -32767 ≤ (processAudio realLibm random s buffer length).2 (2 * k)
      ∧ (processAudio realLibm random s buffer length).2 (2 * k) ≤ 32767 := by
  have hout : ∀ (r : Fin NUM_VOICES → Int) (t : MintySynth ℝ),
      (renderFrame realLibm r t).2.1 = (renderFrame realLibm r t).2.2
        ∧ -32767 ≤ (renderFrame realLibm r t).2.1 ∧ (renderFrame realLibm r t).2.1 ≤ 32767 := by
    intro r t
    rw [renderFrame_output]
    exact ⟨rfl, toInt_clipped_range _⟩
  have hsum : Finset.univ.sum (fun v : Fin NUM_VOICES =>
        if s.voiceActive v = true then
          getWaveformSample realLibm (rnd v) (s.voices v).waveform (s.voicePhase v)
            * getEnvelopeSample realLibm (s.voices v).envelope (s.voiceEnvPhase v)
            * (((s.voices v).volume : ℝ) / 127)
        else 0)
      = voiceContribution realLibm rnd s 0 + voiceContribution realLibm rnd s 1
          + voiceContribution realLibm rnd s 2 + voiceContribution realLibm rnd s 3 := by
    rw [Fin.sum_univ_four]
    rfl
  have hfr := processAudio_frames realLibm random s buffer length
  have hc1 : 2 * k < 2 * ((length + 1) / 2) := by omega
  have hc2 : 2 * k + 1 < 2 * ((length + 1) / 2) := by omega
  have hm1 : 2 * k % 2 = 0 := by omega
  have hm2 : ¬ ((2 * k + 1) % 2 = 0) := by omega
  have hd1 : 2 * k / 2 = k := by omega
  have hd2 : (2 * k + 1) / 2 = k := by omega
  have e1 : (processAudio realLibm random s buffer length).2 (2 * k)
      = (renderFrame realLibm (random (2 * k)) (stateAtFrame realLibm random s k)).2.1 := by
    rw [hfr]
    simp only [if_pos hc1, hm1, if_true, hd1, frameOutput]
  have e2 : (processAudio realLibm random s buffer length).2 (2 * k + 1)
      = (renderFrame realLibm (random (2 * k)) (stateAtFrame realLibm random s k)).2.2 := by
    rw [hfr]
    simp only [if_pos hc2, if_neg hm2, hd2, frameOutput]
  obtain ⟨o1, o2, o3⟩ := hout rnd s
  obtain ⟨p1, p2, p3⟩ := hout (random (2 * k)) (stateAtFrame realLibm random s k)
  refine ⟨o1, o2, o3, ?_, e1, e2, ?_, ?_, ?_⟩
  · have harg : (voiceContribution realLibm rnd s 0 + voiceContribution realLibm rnd s 1
          + voiceContribution realLibm rnd s 2 + voiceContribution realLibm rnd s 3)
            * ((s.globals.masterVolume : ℝ) / 127) * 16000
        = 16000 * ((s.globals.masterVolume : ℝ) / 127)
            * (voiceContribution realLibm rnd s 0 + voiceContribution realLibm rnd s 1
              + voiceContribution realLibm rnd s 2 + voiceContribution realLibm rnd s 3) := by
      ring
    rw [hsum, renderFrame_output, harg]
  · rw [e1, e2]
    exact p1
  · rw [e1]
    exact p2
  · rw [e1]
    exact p3

/-- Witness for C13: A4 triggered on voice 0 of a fresh engine, a call with buffer length 4,
second frame. -/
theorem frame_output_clipped_witness :
    1 < (4 + 1) / 2
    ∧ (processAudio realLibm (fun _ _ => 0) (a4Triggered realLibm) (fun _ => 0) 4).2 (2 * 1)
          = (processAudio realLibm (fun _ _ => 0) (a4Triggered realLibm) (fun _ => 0) 4).2
              (2 * 1 + 1)
    ∧ -32767 ≤ (processAudio realLibm (fun _ _ => 0) (a4Triggered realLibm) (fun _ => 0) 4).2
        (2 * 1)
    ∧ (processAudio realLibm (fun _ _ => 0) (a4Triggered realLibm) (fun _ => 0) 4).2 (2 * 1)
        ≤ 32767 :=
  have h := frame_output_clipped (a4Triggered realLibm) (fun _ => 0) (fun _ _ => 0)
    (fun _ => 0) 4 1 (by decide)
  ⟨by decide, h.2.2.2.2.2.2.1, h.2.2.2.2.2.2.2.1, h.2.2.2.2.2.2.2.2⟩

/-! ## Per-frame bookkeeping -/

/-- C20, the code at the failing input: after `triggerVoice(0, 189, 127)` on a fresh engine
(frequency `440 * 2^10 = 450560` Hz) and one rendered frame, the phase of voice 0 is
`2π * 450560 / 44100 - 2π`, which is not below `2π`: the phase update subtracts `2π` at
most once. -/
theorem phase_escapes_range :
    Reachable realLibm (highNoteOneFrame realLibm)
      ∧ (triggerVoice realLibm (new : MintySynth ℝ) 0 189 127).voiceFreq 0 = 450560
      ∧ (highNoteOneFrame realLibm).voicePhase 0 = 2 * Real.pi * 450560 / 44100 - 2 * Real.pi
      ∧ ¬ ((highNoteOneFrame realLibm).voicePhase 0 < 2 * Real.pi) := by
  have hpos := Real.pi_pos
  have hreach : Reachable realLibm (highNoteOneFrame realLibm) := by
    have r1 := Reachable.step (new : MintySynth ℝ) (Op.triggerVoice 0 189 127)
      (Reachable.new : Reachable realLibm new) (by simp only [Op.wellTyped]; decide)
    exact Reachable.step _ (Op.processAudio (fun _ _ => 0) (fun _ => 0) 2) r1
      (by intro i v; exact ⟨by norm_num, by norm_num⟩)
  have hsame := triggerVoice_same realLibm (new : MintySynth ℝ) 0 189 127 (by decide)
  simp only [voiceState, Prod.mk.injEq] at hsame
  obtain ⟨_, h2, _, _, h5⟩ := hsame
  have hfreq : (triggerVoice realLibm (new : MintySynth ℝ) 0 189 127).voiceFreq 0 = 450560 := by
    have h := triggerVoice_freq_real (new : MintySynth ℝ) 0 189 127 (by decide)
    have hexp : (((189 : Nat) : ℝ) - 69) / 12 = ((10 : Nat) : ℝ) := by norm_num
    rw [hexp, Real.rpow_natCast] at h
    rw [show (450560 : ℝ) = 440 * (2 : ℝ) ^ (10 : Nat) by norm_num]
    exact h
  have hstate : highNoteOneFrame realLibm
      = (renderFrame realLibm (fun _ => 0) (triggerVoice realLibm (new : MintySynth ℝ) 0 189 127)).1 := by
    unfold highNoteOneFrame
    rw [processAudio_frames]
    rfl
  have hphase : (highNoteOneFrame realLibm).voicePhase 0
      = 2 * Real.pi * 450560 / 44100 - 2 * Real.pi := by
    rw [hstate]
    have ha := (renderFrame_active realLibm (fun _ => 0)
      (triggerVoice realLibm (new : MintySynth ℝ) 0 189 127) 0 h5).2.1
    rw [ha]
    have hp0 : (triggerVoice realLibm (new : MintySynth ℝ) 0 189 127).voicePhase 0 = 0 := h2
    rw [hp0, hfreq]
    have hgt : (0 : ℝ) + 450560 * 2 * Real.pi / ((SAMPLE_RATE : Nat) : ℝ) > 2 * Real.pi := by
      push_cast
      rw [gt_iff_lt, zero_add, lt_div_iff₀ (by norm_num)]
      nlinarith
    simp only [advancedPhase, realLibm, if_pos hgt]
    push_cast
    ring
  refine ⟨hreach, hfreq, hphase, ?_⟩
  rw [hphase, not_lt]
  have : 2 * Real.pi * 450560 / 44100 = Real.pi * (901120 / 44100) := by ring
  rw [this]
  have h4 : (4 : ℝ) ≤ 901120 / 44100 := by norm_num
  nlinarith

theorem renderFrame_voiceFreq (M : Libm F) (rnd : Fin NUM_VOICES → Int) (s : MintySynth F)
    (v : Fin NUM_VOICES) : (renderFrame M rnd s).1.voiceFreq v = s.voiceFreq v := by
  have h := renderFrame_voiceState M rnd s v
  unfold voiceAfterFrame at h
  split_ifs at h <;> simp only [voiceState, Prod.mk.injEq] at h <;> exact h.2.2.1

theorem stateAtFrame_voiceFreq (M : Libm F) (random : Nat → Fin NUM_VOICES → Int)
    (s : MintySynth F) (v : Fin NUM_VOICES) :
    ∀ k, (stateAtFrame M random s k).voiceFreq v = s.voiceFreq v := by
  intro k
  induction k with
  | zero => rfl
  | succ k ih => simp only [stateAtFrame, renderFrame_voiceFreq, ih]

/-- At 440 Hz the phase advances by `2π * 22 / 2205` per frame: from `2π * a / 2205` with
`a ≤ 2205` it goes to `2π * a' / 2205` with `a' = a + 22`, or `a + 22 - 2205` if
`a + 22 > 2205`. -/
theorem advancedPhase_a4 (a : Nat) (ha : a ≤ 2205) :
    ∃ a' : Nat, advancedPhase realLibm (2 * Real.pi * (a : ℝ) / 2205) 440
        = 2 * Real.pi * (a' : ℝ) / 2205
      ∧ 1 ≤ a' ∧ a' ≤ 2205 ∧ a' % 2205 = (a + 22) % 2205 := by
  have hpos := Real.pi_pos
  have hx : 2 * Real.pi * (a : ℝ) / 2205 + 440 * 2 * Real.pi / ((SAMPLE_RATE : Nat) : ℝ)
      = 2 * Real.pi * ((a : ℝ) + 22) / 2205 := by
    push_cast
    field_simp
    ring
  by_cases hc : a + 22 > 2205
  · refine ⟨a + 22 - 2205, ?_, by omega, by omega, by omega⟩
    have hgt : 2 * Real.pi * ((a : ℝ) + 22) / 2205 > 2 * Real.pi := by
      have h1 : (2205 : ℝ) < (a : ℝ) + 22 := by exact_mod_cast hc
      rw [gt_iff_lt, lt_div_iff₀ (by norm_num)]
      exact mul_lt_mul_of_pos_left h1 (by positivity)
    simp only [advancedPhase, realLibm]
    rw [hx, if_pos hgt]
    have hcast : ((a + 22 - 2205 : Nat) : ℝ) = (a : ℝ) + 22 - 2205 := by
      rw [Nat.cast_sub (by omega)]
      push_cast
      ring
    rw [hcast]
    field_simp
    ring
  · refine ⟨a + 22, ?_, by omega, by omega, rfl⟩
    have hle : ¬ (2 * Real.pi * ((a : ℝ) + 22) / 2205 > 2 * Real.pi) := by
      have h1 : (a : ℝ) + 22 ≤ 2205 := by exact_mod_cast (not_lt.mp hc)
      rw [gt_iff_lt, not_lt, div_le_iff₀ (by norm_num)]
      exact mul_le_mul_of_nonneg_left h1 (by positivity)
    simp only [advancedPhase, realLibm]
    rw [hx, if_neg hle]
    push_cast
    ring

/-- With A4 triggered on voice 0 of a fresh engine, after `k ≤ 2205` frames the phase of
voice 0 is `2π * a / 2205` for a natural number `a ≤ 2205` congruent to `22 * k` modulo
2205, positive from the first frame on. -/
theorem a4_phase_run (random : Nat → Fin NUM_VOICES → Int) :
    ∀ k, k ≤ 2205 →
      ∃ a : Nat, (stateAtFrame realLibm random (a4Triggered realLibm) k).voicePhase 0
          = 2 * Real.pi * (a : ℝ) / 2205
        ∧ a ≤ 2205 ∧ a % 2205 = (22 * k) % 2205 ∧ (1 ≤ k → 1 ≤ a) := by
  intro k
  induction k with
  | zero =>
    intro _
    refine ⟨0, ?_, by omega, by omega, by omega⟩
    have h := triggerVoice_same realLibm (new : MintySynth ℝ) 0 69 127 (by decide)
    simp only [voiceState, Prod.mk.injEq] at h
    have h2 : (a4Triggered realLibm).voicePhase 0 = 0 := h.2.1
    show (a4Triggered realLibm).voicePhase 0 = 2 * Real.pi * ((0 : Nat) : ℝ) / 2205
    rw [h2]
    norm_num
  | succ k ih =>
    intro hk
    obtain ⟨a, h1, h2, h3, _⟩ := ih (by omega)
    have hact := (a4Triggered_frames realLibm random k (by omega)).1
    have hph := (renderFrame_active realLibm (random (2 * k))
      (stateAtFrame realLibm random (a4Triggered realLibm) k) 0 hact).2.1
    have hfreq : (stateAtFrame realLibm random (a4Triggered realLibm) k).voiceFreq 0 = 440 := by
      rw [stateAtFrame_voiceFreq]
      have h := triggerVoice_freq_real (new : MintySynth ℝ) 0 69 127 (by decide)
      have e : (440 : ℝ) * (2 : ℝ) ^ ((((69 : Nat) : ℝ) - 69) / 12) = 440 := by norm_num
      rw [e] at h
      exact h
    rw [h1, hfreq] at hph
    obtain ⟨a', e1, e2, e3, e4⟩ := advancedPhase_a4 a h2
    refine ⟨a', ?_, e3, by omega, fun _ => e2⟩
    simp only [stateAtFrame]
    rw [hph, e1]

/-- The state after a `processAudio` call is the state after `(length + 1) / 2` frames. -/
theorem applyOp_processAudio (M : Libm F) (s : MintySynth F)
    (random : Nat → Fin NUM_VOICES → Int) (buffer : Nat → Int) (length : Nat) :
    applyOp M s (Op.processAudio random buffer length)
      = stateAtFrame M random s ((length + 1) / 2) := by
  show (processAudio M random s buffer length).1 = _
  rw [processAudio_frames]

theorem a4AfterFullLength_eq (M : Libm F) :
    a4AfterFullLength M = stateAtFrame M (fun _ _ => 0) (a4Triggered M) 2205 := by
  unfold a4AfterFullLength
  rw [applyOp_processAudio]
  have hN : (4410 + 1) / 2 = 2205 := by norm_num
  rw [hN]
  rfl

/-- With the default parameters the phase reaches `2π` itself: after
`triggerVoice(0, 69, 127)` on a fresh engine and a `processAudio` call of buffer length 4410
(2205 frames at 440 Hz, 22 full cycles), voice 0 is still active and its phase is exactly
`2π`, so it is not below `2π`: the wrap test is `phase > 2π`. -/
theorem a4_phase_reaches_two_pi :
    Reachable realLibm (a4AfterFullLength realLibm)
      ∧ (a4AfterFullLength realLibm).voiceActive 0 = true
      ∧ (a4AfterFullLength realLibm).voicePhase 0 = 2 * Real.pi
      ∧ ¬ ((a4AfterFullLength realLibm).voicePhase 0 < 2 * Real.pi) := by
  have hreach : Reachable realLibm (a4AfterFullLength realLibm) := by
    have r1 := Reachable.step (new : MintySynth ℝ) (Op.triggerVoice 0 69 127)
      (Reachable.new : Reachable realLibm new) (by simp only [Op.wellTyped]; decide)
    unfold a4AfterFullLength
    exact Reachable.step _ (Op.processAudio (fun _ _ => 0) (fun _ => 0) 4410) r1
      (by intro i v; exact ⟨by norm_num, by norm_num⟩)
  have hstate := a4AfterFullLength_eq realLibm
  obtain ⟨a, h1, h2, h3, h4⟩ := a4_phase_run (fun _ _ => 0) 2205 (le_refl _)
  have ha : a = 2205 := by
    have := h4 (by decide)
    omega
  have hphase : (a4AfterFullLength realLibm).voicePhase 0 = 2 * Real.pi := by
    rw [hstate, h1, ha]
    push_cast
    field_simp
  refine ⟨hreach, ?_, hphase, ?_⟩
  · rw [hstate]
    exact (a4Triggered_frames realLibm (fun _ _ => 0) 2205 (le_refl _)).1
  · rw [hphase]
    exact lt_irrefl _

/-! ## The step clock -/

theorem toU16_constrain_tempo (x : Nat) :
    60 ≤ toU16 (constrain (x : Int) 60 200) ∧ toU16 (constrain (x : Int) 60 200) ≤ 200 := by
  have e := toU16_constrain_nat x 60 200 (by decide) (by decide)
  push_cast at e
  rw [e]
  omega

theorem setTempo_stepClockConsistent (s : MintySynth F) (bpm : Nat) :
    stepClockConsistent (setTempo s bpm) := by
  obtain ⟨h1, h2⟩ := toU16_constrain_tempo bpm
  exact ⟨h1, h2, rfl⟩

/-- A state's step-clock data are part of its grid-globals-transport view. -/
theorem stepClockConsistent_of_sharedState (s t : MintySynth F)
    (h : sharedState t = sharedState s) (hs : stepClockConsistent s) :
    stepClockConsistent t := by
  simp only [sharedState, Prod.mk.injEq] at h
  obtain ⟨_, hg, _, _, _, hd⟩ := h
  unfold stepClockConsistent
  rw [hg, hd]
  exact hs

theorem reachable_stepClockConsistent (M : Libm F) (s : MintySynth F) (hs : Reachable M s) :
    stepClockConsistent s := by
  refine Reachable.invariant M stepClockConsistent ?_ ?_ s hs
  · refine ⟨?_, ?_, ?_⟩ <;> simp only [new, calculateStepDuration] <;> decide
  · intro s op ih hw
    cases op with
    | begin => exact ih
    | setVoiceParam voice param value =>
      simp only [applyOp, setVoiceParam, updateVoiceFrequencies]
      split_ifs <;> exact ih
    | setGlobalParam param value =>
      simp only [applyOp, setGlobalParam]
      split_ifs
      · exact setTempo_stepClockConsistent s value
      · exact ⟨ih.1, ih.2.1, rfl⟩
      · exact ih
      · exact ih
      · exact ih
      · exact ih
    | setTempo bpm => exact setTempo_stepClockConsistent s bpm
    | triggerVoice voice note velocity =>
      exact stepClockConsistent_of_sharedState s _
        (triggerVoice_sharedState M s voice note velocity) ih
    | releaseVoice voice =>
      simp only [applyOp, releaseVoice]
      split_ifs <;> exact ih
    | setStep voice step note active =>
      simp only [applyOp, setStep]
      split_ifs <;> exact ih
    | clearStep voice step =>
      simp only [applyOp, clearStep]
      split_ifs <;> exact ih
    | start now => exact ih
    | stop => exact ih
    | updateSequencer now1 now2 =>
      exact updateSequencer_invariant M stepClockConsistent
        (fun t v n vel ht _ =>
          stepClockConsistent_of_sharedState t _ (triggerVoice_sharedState M t v n vel) ht)
        (fun t c k ht => ht) s now1 now2 ih
    | processAudio random buffer length =>
      refine processAudio_invariant M random stepClockConsistent ?_ s buffer length ih
      intro rnd acc v hacc
      exact stepClockConsistent_of_sharedState acc.1 _ (processVoice_sharedState M rnd acc v) hacc

/-- With the tempo in `[60, 200]`, `(60000 / tempo) / 4` lies in `[75, 250]`. -/
theorem stepDuration_range (tempo : Nat) (h1 : 60 ≤ tempo) (h2 : tempo ≤ 200) :
    75 ≤ (60000 / tempo) / 4 ∧ (60000 / tempo) / 4 ≤ 250 := by
  have hlo : 60000 / 200 ≤ 60000 / tempo := Nat.div_le_div_left h2 (by omega)
  have hhi : 60000 / tempo ≤ 60000 / 60 := Nat.div_le_div_left h1 (by decide)
  have e1 : 60000 / 200 = 300 := by decide
  have e2 : 60000 / 60 = 1000 := by decide
  rw [e1] at hlo
  rw [e2] at hhi
  omega

/-- C21: in every reachable state the stored tempo lies in `[60, 200]` (so the division in
`calculateStepDuration` is never by zero), `stepDuration` equals `(60000 / tempo) / 4` with
integer division and lies in `[75, 250]`; and `setGlobalParam(GLOBAL_SWING, x)` leaves
`stepDuration` (and the tempo) unchanged. -/
theorem step_clock_invariant (M : Libm F) (s : MintySynth F) (hs : Reachable M s) (x : Nat) :
    60 ≤ s.globals.tempo ∧ s.globals.tempo ≤ 200 ∧ s.globals.tempo ≠ 0
      ∧ s.stepDuration = (60000 / s.globals.tempo) / 4
      ∧ 75 ≤ s.stepDuration ∧ s.stepDuration ≤ 250
      ∧ (setGlobalParam M s GLOBAL_SWING x).stepDuration = s.stepDuration
      ∧ (setGlobalParam M s GLOBAL_SWING x).globals.tempo = s.globals.tempo := by
  obtain ⟨h1, h2, h3⟩ := reachable_stepClockConsistent M s hs
  obtain ⟨r1, r2⟩ := stepDuration_range s.globals.tempo h1 h2
  have hsw : setGlobalParam M s GLOBAL_SWING x
      = calculateStepDuration
          { s with globals := { s.globals with swing := toU8 (constrain (x : Int) 0 127) } } := by
    simp [setGlobalParam]
  refine ⟨h1, h2, by omega, h3, by rw [h3]; exact r1, by rw [h3]; exact r2, ?_, ?_⟩
  · rw [hsw, h3]
    rfl
  · rw [hsw]
    rfl

/-- Witness for C21: the state after `setTempo(90)` on a fresh engine, with swing value 40. -/
theorem step_clock_invariant_witness :
    Reachable realLibm (applyOp realLibm (new : MintySynth ℝ) (Op.setTempo 90))
    ∧ (60 ≤ (applyOp realLibm (new : MintySynth ℝ) (Op.setTempo 90)).globals.tempo
      ∧ (applyOp realLibm (new : MintySynth ℝ) (Op.setTempo 90)).globals.tempo ≤ 200
      ∧ (applyOp realLibm (new : MintySynth ℝ) (Op.setTempo 90)).globals.tempo ≠ 0
      ∧ (applyOp realLibm (new : MintySynth ℝ) (Op.setTempo 90)).stepDuration
          = (60000 / (applyOp realLibm (new : MintySynth ℝ) (Op.setTempo 90)).globals.tempo) / 4
      ∧ 75 ≤ (applyOp realLibm (new : MintySynth ℝ) (Op.setTempo 90)).stepDuration
      ∧ (applyOp realLibm (new : MintySynth ℝ) (Op.setTempo 90)).stepDuration ≤ 250
      ∧ (setGlobalParam realLibm (applyOp realLibm (new : MintySynth ℝ) (Op.setTempo 90))
            GLOBAL_SWING 40).stepDuration
          = (applyOp realLibm (new : MintySynth ℝ) (Op.setTempo 90)).stepDuration
      ∧ (setGlobalParam realLibm (applyOp realLibm (new : MintySynth ℝ) (Op.setTempo 90))
            GLOBAL_SWING 40).globals.tempo
          = (applyOp realLibm (new : MintySynth ℝ) (Op.setTempo 90)).globals.tempo) :=
  have hr : Reachable realLibm (applyOp realLibm (new : MintySynth ℝ) (Op.setTempo 90)) :=
    Reachable.step new (Op.setTempo 90) Reachable.new (by simp only [Op.wellTyped]; decide)
  ⟨hr, step_clock_invariant realLibm _ hr 40⟩

/-! ## Velocity -/

/-- C22: the velocity argument of `triggerVoice` has no effect: two calls that differ only
in the velocity give the same engine state, hence the same state and buffer after any
subsequent `processAudio` call; likewise the sequencer's trigger of a voice does not depend
on the velocity stored in the grid cell. -/
theorem velocity_has_no_effect (M : Libm F) (s : MintySynth F) (v n a b : Nat)
    (random : Nat → Fin NUM_VOICES → Int) (buffer : Nat → Int) (length : Nat)
    (step : Fin NUM_STEPS) (w : Fin NUM_VOICES) :
    triggerVoice M s v n a = triggerVoice M s v n b
      ∧ processAudio M random (triggerVoice M s v n a) buffer length
          = processAudio M random (triggerVoice M s v n b) buffer length
      ∧ sequencerVoice M step s w
          = (if (s.sequence w step).active then
              triggerVoice M s w.val
                (toU8 (((s.sequence w step).note : Int) + s.globals.transpose)) b
            else s) := by
  have h : ∀ c d : Nat, triggerVoice M s v n c = triggerVoice M s v n d := fun _ _ => rfl
  refine ⟨h a b, ?_, ?_⟩
  · rw [h a b]
  · unfold sequencerVoice
    split_ifs
    · rfl
    · rfl

/-! ## The envelope clock never overflows -/

theorem processVoice_envClockBounded (M : Libm F) (rnd : Fin NUM_VOICES → Int)
    (acc : MintySynth F × F × F) (v : Fin NUM_VOICES) (hlen : (acc.1.voices v).length ≤ 127)
    (h : envClockBounded acc.1) : envClockBounded (processVoice M rnd acc v).1 := by
  intro w
  obtain ⟨hw1, hw2⟩ := h w
  by_cases hwv : w = v
  · subst hwv
    have hs := processVoice_same M rnd acc w
    unfold voiceAfterFrame at hs
    by_cases ha : acc.1.voiceActive w = true
    · rw [if_pos ha] at hs
      simp only [voiceState, Prod.mk.injEq] at hs
      obtain ⟨_, _, _, h4, h5⟩ := hs
      have he := hw1 ha
      rw [h4, h5]
      have hd : (acc.1.voices w).length * 44100 / 1000 ≤ 5600 := by omega
      have hT : (acc.1.voices w).length * SAMPLE_RATE / 1000 % 65536 ≤ 5600 :=
        le_trans (Nat.mod_le _ _) hd
      constructor
      · intro hact
        split_ifs at hact with hc
        omega
      · omega
    · rw [if_neg ha] at hs
      simp only [voiceState, Prod.mk.injEq] at hs
      obtain ⟨_, _, _, h4, h5⟩ := hs
      rw [h4, h5]
      exact ⟨hw1, hw2⟩
  · have ho := processVoice_other M rnd acc v w hwv
    simp only [voiceState, Prod.mk.injEq] at ho
    obtain ⟨_, _, _, h4, h5⟩ := ho
    rw [h4, h5]
    exact ⟨hw1, hw2⟩

theorem triggerVoice_envClockBounded (M : Libm F) (s : MintySynth F) (voice note velocity : Nat)
    (h : envClockBounded s) : envClockBounded (triggerVoice M s voice note velocity) := by
  by_cases hv : voice < NUM_VOICES
  · intro w
    by_cases hw : w = ⟨voice, hv⟩
    · subst hw
      have hs := triggerVoice_same M s voice note velocity hv
      simp only [voiceState, Prod.mk.injEq] at hs
      obtain ⟨_, _, _, h4, _⟩ := hs
      rw [h4]
      exact ⟨fun _ => by omega, by omega⟩
    · have ho := triggerVoice_other M s voice note velocity hv w hw
      simp only [voiceState, Prod.mk.injEq] at ho
      obtain ⟨_, _, _, h4, h5⟩ := ho
      rw [h4, h5]
      exact h w
  · unfold triggerVoice
    rw [dif_pos (by omega)]
    exact h

theorem processAudio_envClockBounded (M : Libm F) (random : Nat → Fin NUM_VOICES → Int)
    (s : MintySynth F) (buffer : Nat → Int) (length : Nat)
    (hlen : ∀ v, (s.voices v).length ≤ 127) (h : envClockBounded s) :
    envClockBounded (processAudio M random s buffer length).1 := by
  have hP := processAudio_invariant M random
    (fun t => t.voices = s.voices ∧ envClockBounded t) ?_ s buffer length ⟨rfl, h⟩
  · exact hP.2
  · intro rnd acc v hacc
    obtain ⟨hv, hq⟩ := hacc
    refine ⟨by rw [processVoice_voices]; exact hv, ?_⟩
    exact processVoice_envClockBounded M rnd acc v (by rw [hv]; exact hlen v) hq

theorem reachable_envClockBounded (M : Libm F) (s : MintySynth F) (hs : Reachable M s) :
    envClockBounded s := by
  induction hs with
  | new =>
    intro v
    exact ⟨fun _ => Nat.zero_le _, Nat.zero_le _⟩
  | step s op hr hw ih =>
    cases op with
    | begin => exact ih
    | setVoiceParam voice param value =>
      simp only [applyOp, setVoiceParam, updateVoiceFrequencies]
      split_ifs <;> exact ih
    | setGlobalParam param value =>
      simp only [applyOp, setGlobalParam, setTempo, calculateStepDuration, updateVoiceFrequencies]
      split_ifs <;> exact ih
    | setTempo bpm => exact ih
    | triggerVoice voice note velocity =>
      exact triggerVoice_envClockBounded M s voice note velocity ih
    | releaseVoice voice =>
      simp only [applyOp, releaseVoice]
      split_ifs with hv
      · exact ih
      · intro w
        obtain ⟨h1, h2⟩ := ih w
        refine ⟨?_, h2⟩
        intro hact
        by_cases hwv : w = ⟨voice, Nat.lt_of_not_ge hv⟩
        · subst hwv
          simp only [Function.update_same] at hact
          exact absurd hact (by decide)
        · simp only [Function.update_noteq hwv] at hact
          exact h1 hact
    | setStep voice step note active =>
      simp only [applyOp, setStep]
      split_ifs <;> exact ih
    | clearStep voice step =>
      simp only [applyOp, clearStep]
      split_ifs <;> exact ih
    | start now => exact ih
    | stop =>
      intro w
      exact ⟨fun hact => absurd hact (by simp [applyOp, stop]), (ih w).2⟩
    | updateSequencer now1 now2 =>
      exact updateSequencer_invariant M envClockBounded
        (fun t v n vel ht _ => triggerVoice_envClockBounded M t v n vel ht)
        (fun t c k ht => ht) s now1 now2 ih
    | processAudio random buffer length =>
      have hb := reachable_voiceStoreBounded M s hr
      exact processAudio_envClockBounded M random s buffer length
        (fun v => (hb v).2.2.2.1) ih

/-- C23: in every reachable state every active voice has its envelope clock at most 5600,
every voice has it at most 5601, and the expiry threshold `length * 44100 / 1000` is at
most 5600; hence neither the 16-bit increment of the clock nor the 16-bit store of the
threshold wraps modulo 65536. -/
theorem envelope_clock_never_overflows (M : Libm F) (s : MintySynth F) (hs : Reachable M s)
    (v : Fin NUM_VOICES) :
    (s.voiceActive v = true → s.voiceEnvPhase v ≤ 5600)
      ∧ s.voiceEnvPhase v ≤ 5601
      ∧ 127 * 44100 / 1000 + 1 = 5601
      ∧ (s.voices v).length * 44100 / 1000 ≤ 5600
      ∧ (s.voiceEnvPhase v + 1) % 65536 = s.voiceEnvPhase v + 1
      ∧ ((s.voices v).length * SAMPLE_RATE / 1000) % 65536
          = (s.voices v).length * SAMPLE_RATE / 1000 := by
  obtain ⟨h1, h2⟩ := reachable_envClockBounded M s hs v
  have hl : (s.voices v).length ≤ 127 := (reachable_voiceStoreBounded M s hs v).2.2.2.1
  have hd : (s.voices v).length * 44100 / 1000 ≤ 5600 := by omega
  refine ⟨h1, h2, by decide, hd, by omega, ?_⟩
  exact Nat.mod_eq_of_lt (lt_of_le_of_lt hd (by decide))

/-- Witness for C23: voice 0 of a fresh engine with A4 triggered. -/
theorem envelope_clock_never_overflows_witness :
    Reachable realLibm (applyOp realLibm (new : MintySynth ℝ) (Op.triggerVoice 0 69 127))
    ∧ (((applyOp realLibm (new : MintySynth ℝ) (Op.triggerVoice 0 69 127)).voiceActive 0 = true →
          (applyOp realLibm (new : MintySynth ℝ) (Op.triggerVoice 0 69 127)).voiceEnvPhase 0
            ≤ 5600)
      ∧ (applyOp realLibm (new : MintySynth ℝ) (Op.triggerVoice 0 69 127)).voiceEnvPhase 0 ≤ 5601
      ∧ 127 * 44100 / 1000 + 1 = 5601
      ∧ ((applyOp realLibm (new : MintySynth ℝ) (Op.triggerVoice 0 69 127)).voices 0).length
          * 44100 / 1000 ≤ 5600
      ∧ ((applyOp realLibm (new : MintySynth ℝ) (Op.triggerVoice 0 69 127)).voiceEnvPhase 0 + 1)
          % 65536
          = (applyOp realLibm (new : MintySynth ℝ) (Op.triggerVoice 0 69 127)).voiceEnvPhase 0 + 1
      ∧ (((applyOp realLibm (new : MintySynth ℝ) (Op.triggerVoice 0 69 127)).voices 0).length
          * SAMPLE_RATE / 1000) % 65536
          = ((applyOp realLibm (new : MintySynth ℝ) (Op.triggerVoice 0 69 127)).voices 0).length
              * SAMPLE_RATE / 1000) :=
  have hr : Reachable realLibm
      (applyOp realLibm (new : MintySynth ℝ) (Op.triggerVoice 0 69 127)) :=
    Reachable.step new (Op.triggerVoice 0 69 127) Reachable.new
      (by simp only [Op.wellTyped]; decide)
  ⟨hr, envelope_clock_never_overflows realLibm _ hr 0⟩

/-! ## Reading the transpose back -/

theorem toI16_of_lt (x : Nat) (hx : x < 65536) :
    toI16 x = if x < 32768 then (x : Int) else (x : Int) - 65536 := by
  unfold toI16
  have hm : x % 65536 = x := Nat.mod_eq_of_lt hx
  rw [hm]

theorem constrain_int_eq (i lo hi : Int) (h : lo ≤ hi) :
    constrain i lo hi = max lo (min i hi) := by
  unfold constrain
  split_ifs with h1 h2 <;> omega

/-- C24: for a 16-bit value `x`, after `setGlobalParam(GLOBAL_TRANSPOSE, x)` the stored
transpose is `x` read as a signed 16-bit integer and clamped to `[-12, 12]`, and
`getGlobalParam(GLOBAL_TRANSPOSE)` returns the stored transpose plus 12, a value in
`0..24`; so for `x` in `0..12` the value read back is `x + 12`, not `x`. -/
theorem transpose_readback (M : Libm F) (s : MintySynth F) (x : Nat) (hx : x < 65536) :
    (setGlobalParam M s GLOBAL_TRANSPOSE x).globals.transpose
        = max (-12) (min (if x < 32768 then (x : Int) else (x : Int) - 65536) 12)
      ∧ ((getGlobalParam (setGlobalParam M s GLOBAL_TRANSPOSE x) GLOBAL_TRANSPOSE : Nat) : Int)
          = (setGlobalParam M s GLOBAL_TRANSPOSE x).globals.transpose + 12
      ∧ getGlobalParam (setGlobalParam M s GLOBAL_TRANSPOSE x) GLOBAL_TRANSPOSE ≤ 24
      ∧ (x ≤ 12 →
          getGlobalParam (setGlobalParam M s GLOBAL_TRANSPOSE x) GLOBAL_TRANSPOSE = x + 12)
      ∧ (1 ≤ x → x ≤ 12 →
          getGlobalParam (setGlobalParam M s GLOBAL_TRANSPOSE x) GLOBAL_TRANSPOSE ≠ x) := by
  have hset : (setGlobalParam M s GLOBAL_TRANSPOSE x).globals.transpose
      = constrain (toI16 x) (-12) 12 := by
    simp [setGlobalParam, updateVoiceFrequencies]
  have hget : getGlobalParam (setGlobalParam M s GLOBAL_TRANSPOSE x) GLOBAL_TRANSPOSE
      = toU16 ((setGlobalParam M s GLOBAL_TRANSPOSE x).globals.transpose + 12) := by
    simp [getGlobalParam]
  have hval : (setGlobalParam M s GLOBAL_TRANSPOSE x).globals.transpose
      = max (-12) (min (if x < 32768 then (x : Int) else (x : Int) - 65536) 12) := by
    rw [hset, toI16_of_lt x hx, constrain_int_eq _ _ _ (by decide)]
  have hlo : -12 ≤ (setGlobalParam M s GLOBAL_TRANSPOSE x).globals.transpose := by
    rw [hval]; omega
  have hhi : (setGlobalParam M s GLOBAL_TRANSPOSE x).globals.transpose ≤ 12 := by
    rw [hval]; omega
  have hcast : ((getGlobalParam (setGlobalParam M s GLOBAL_TRANSPOSE x) GLOBAL_TRANSPOSE : Nat)
      : Int) = (setGlobalParam M s GLOBAL_TRANSPOSE x).globals.transpose + 12 := by
    rw [hget]
    unfold toU16
    omega
  refine ⟨hval, hcast, by omega, ?_, ?_⟩
  · intro h12
    have hx' : (setGlobalParam M s GLOBAL_TRANSPOSE x).globals.transpose = (x : Int) := by
      rw [hval]
      have : x < 32768 := by omega
      rw [if_pos this]
      omega
    omega
  · intro h1 h12
    have hx' : (setGlobalParam M s GLOBAL_TRANSPOSE x).globals.transpose = (x : Int) := by
      rw [hval]
      have : x < 32768 := by omega
      rw [if_pos this]
      omega
    omega

/-- Witness for C24: transpose value 5 written on a fresh engine reads back as 17. -/
theorem transpose_readback_witness :
    (5 < 65536 ∧ 5 ≤ 12 ∧ 1 ≤ 5)
    ∧ (setGlobalParam realLibm (new : MintySynth ℝ) GLOBAL_TRANSPOSE 5).globals.transpose
        = max (-12) (min (if 5 < 32768 then ((5 : Nat) : Int) else ((5 : Nat) : Int) - 65536) 12)
    ∧ getGlobalParam (setGlobalParam realLibm (new : MintySynth ℝ) GLOBAL_TRANSPOSE 5)
        GLOBAL_TRANSPOSE = 5 + 12
    ∧ getGlobalParam (setGlobalParam realLibm (new : MintySynth ℝ) GLOBAL_TRANSPOSE 5)
        GLOBAL_TRANSPOSE ≠ 5 :=
  have h := transpose_readback realLibm (new : MintySynth ℝ) 5 (by decide)
  ⟨by decide, h.1, h.2.2.2.1 (by decide), h.2.2.2.2 (by decide) (by decide)⟩


/-! ## An unknown parameter id retunes a sounding voice -/

/-- After `begin()`, `setGlobalParam(GLOBAL_TRANSPOSE, 12)` and `triggerVoice(0, 69, 127)`
on a fresh engine: a reachable state in which voice 0 is active with pitch 69 and frequency
440 while the transpose is 12. -/
theorem triggeredAfterTranspose_voice0 :
    Reachable realLibm (triggeredAfterTranspose realLibm)
      ∧ (triggeredAfterTranspose realLibm).voiceActive 0 = true
      ∧ ((triggeredAfterTranspose realLibm).voices 0).pitch = 69
      ∧ (triggeredAfterTranspose realLibm).globals.transpose = 12
      ∧ (triggeredAfterTranspose realLibm).voiceFreq 0 = 440 := by
  have hreach : Reachable realLibm (triggeredAfterTranspose realLibm) := by
    unfold triggeredAfterTranspose
    have r1 := Reachable.step (new : MintySynth ℝ) Op.begin
      (Reachable.new : Reachable realLibm new) trivial
    have r2 := Reachable.step _ (Op.setGlobalParam GLOBAL_TRANSPOSE 12) r1
      (by simp only [Op.wellTyped]; decide)
    exact Reachable.step _ (Op.triggerVoice 0 69 127) r2 (by simp only [Op.wellTyped]; decide)
  have hsame := triggerVoice_same realLibm
    (setGlobalParam realLibm (begin realLibm (new : MintySynth ℝ)) GLOBAL_TRANSPOSE 12)
    0 69 127 (by decide)
  simp only [voiceState, Prod.mk.injEq] at hsame
  have hact : (triggeredAfterTranspose realLibm).voiceActive 0 = true := hsame.2.2.2.2
  have hp : ((triggeredAfterTranspose realLibm).voices 0).pitch = 69 :=
    triggerVoice_pitch realLibm
      (setGlobalParam realLibm (begin realLibm (new : MintySynth ℝ)) GLOBAL_TRANSPOSE 12)
      0 69 127 (by decide)
  have hf : (triggeredAfterTranspose realLibm).voiceFreq 0 = 440 := by
    have h := triggerVoice_freq_real
      (setGlobalParam realLibm (begin realLibm (new : MintySynth ℝ)) GLOBAL_TRANSPOSE 12)
      0 69 127 (by decide)
    have e : (440 : ℝ) * (2 : ℝ) ^ ((((69 : Nat) : ℝ) - 69) / 12) = 440 := by norm_num
    rw [e] at h
    exact h
  have ht : (triggeredAfterTranspose realLibm).globals.transpose = 12 := by
    have hsh := triggerVoice_sharedState realLibm
      (setGlobalParam realLibm (begin realLibm (new : MintySynth ℝ)) GLOBAL_TRANSPOSE 12) 0 69 127
    simp only [sharedState, Prod.mk.injEq] at hsh
    unfold triggeredAfterTranspose
    rw [hsh.2.1]
    simp [setGlobalParam, updateVoiceFrequencies, begin, new, calculateStepDuration, toI16,
      constrain]
  exact ⟨hreach, hact, hp, ht, hf⟩

/-- C4, the code at the failing input: after `begin()`, `setGlobalParam(GLOBAL_TRANSPOSE, 12)`
and `triggerVoice(0, 69, 127)` on a fresh engine, voice 0 sounds at 440 Hz; the call
`setVoiceParam(0, 6, 0)`, whose parameter id 6 is unknown, moves it to 880 Hz, so the call
is not a no-op, whereas `setGlobalParam` with the unknown id 5 and `setVoiceParam` with the
out-of-range voice 4 both return the state unchanged. -/
theorem setVoiceParam_unknown_param_retunes :
    Reachable realLibm (triggeredAfterTranspose realLibm)
      ∧ (triggeredAfterTranspose realLibm).voiceActive 0 = true
      ∧ (triggeredAfterTranspose realLibm).voiceFreq 0 = 440
      ∧ (setVoiceParam realLibm (triggeredAfterTranspose realLibm) 0 6 0).voiceFreq 0 = 880
      ∧ setVoiceParam realLibm (triggeredAfterTranspose realLibm) 0 6 0
          ≠ triggeredAfterTranspose realLibm
      ∧ setGlobalParam realLibm (triggeredAfterTranspose realLibm) 5 0
          = triggeredAfterTranspose realLibm
      ∧ setVoiceParam realLibm (triggeredAfterTranspose realLibm) 4 6 0
          = triggeredAfterTranspose realLibm := by
  obtain ⟨hreach, hact, hp, ht, hf⟩ := triggeredAfterTranspose_voice0
  obtain ⟨e1, _, e3⟩ := unknown_param_effect realLibm (triggeredAfterTranspose realLibm)
    0 6 0 5 (by decide) (by decide) (by decide)
  have h880 : (setVoiceParam realLibm (triggeredAfterTranspose realLibm) 0 6 0).voiceFreq 0
      = 880 := by
    rw [e1]
    simp only [hp, ht]
    simp only [realLibm]
    norm_num
  refine ⟨hreach, hact, hf, h880, ?_, e3, ?_⟩
  · intro h
    rw [h, hf] at h880
    norm_num at h880
  · unfold setVoiceParam
    rw [dif_pos (by decide)]
